import Mathlib

/-!
Verification development for the Link-Lab repository.

Part A embeds `analyzeGenres` from `src/main/movies_recommendations.cpp`.
Part B models the `RecommendationGraph` / `RecommendationEngine` interface
declared in `src/graph.h` and `src/recommendation_engine.h`; the member
function bodies are not part of the repository snapshot, so those operations
are modelled from the specification text.
-/

namespace MoviesRec

/-- A watchlist entry of the request payload: `genres = some gs` when the JSON
object has a "genres" array with elements `gs`, `none` when the key is absent. -/
structure WMovie where
  genres : Option (List String)
deriving DecidableEq

/-- A user entry of the request payload: `moviePref = some s` when the JSON
object has a "preferences" object with a "movies" string `s`, `none` otherwise. -/
structure WUser where
  moviePref : Option String
deriving DecidableEq

/-- The request payload of the `/recommend` endpoint. -/
structure Payload where
  watchlist : List WMovie
  users : List WUser
deriving DecidableEq

/-- All genre occurrences counted by the two counting loops of `analyzeGenres`:
every element of every "genres" array of a watchlist entry, followed by every
user's "preferences"."movies" string. -/
def collectedGenres (p : Payload) : List String :=
  (p.watchlist.map (fun m => m.genres.getD [])).flatten ++ p.users.filterMap (·.moviePref)

/-- The multiplicity `genreCount[g]` of the C++ `std::map<std::string,int>`. -/
def genreCount (p : Payload) (g : String) : Nat :=
  (collectedGenres p).count g

/-- The distinct counted genres in increasing key order: `genresList` of the
C++ code, which iterates the `std::map` in sorted key order. -/
def genresList (p : Payload) : List String :=
  List.insertionSort (· ≤ ·) (collectedGenres p).dedup

/-- Edge of the genre graph (`struct Edge` in the C++ file). -/
structure GEdge where
  dst : String
  weight : Nat
deriving DecidableEq

/-- The weight `1 + std::abs(genreCount[gi] - genreCount[gj])`. -/
def edgeWeight (cnt : String → Nat) (a b : String) : Nat :=
  1 + Nat.dist (cnt a) (cnt b)

/-- The index pairs `(gs[i], gs[j])` with `i < j`, in the iteration order of the
two nested loops of the graph-building phase. -/
def allPairs : List String → List (String × String)
  | [] => []
  | x :: xs => xs.map (fun y => (x, y)) ++ allPairs xs

/-- One iteration of the inner graph-building loop: push edge `(q.1 → q.2)` and
edge `(q.2 → q.1)`, both of weight `edgeWeight cnt q.1 q.2`. -/
def addPair (cnt : String → Nat) (adj : String → List GEdge) (q : String × String) :
    String → List GEdge :=
  fun x =>
    if x = q.2 then
      (if x = q.1 then adj x ++ [⟨q.2, edgeWeight cnt q.1 q.2⟩] else adj x) ++
        [⟨q.1, edgeWeight cnt q.1 q.2⟩]
    else
      if x = q.1 then adj x ++ [⟨q.2, edgeWeight cnt q.1 q.2⟩] else adj x

def buildGraphAux (cnt : String → Nat) (L : List (String × String))
    (adj : String → List GEdge) : String → List GEdge :=
  L.foldl (addPair cnt) adj

/-- The adjacency map `graph` of `analyzeGenres`, as a function from node name
to its edge list (absent keys map to the empty list). -/
def buildGraph (cnt : String → Nat) (gs : List String) : String → List GEdge :=
  buildGraphAux cnt (allPairs gs) (fun _ => [])

/-- State of the stack-ordered relaxation loop: the `dist` map (`none` stands
for the `INT_MAX` initial value) and the stack (head = top). -/
structure DijkstraState where
  dist : String → Option Nat
  stack : List String

/-- One execution of the loop body over a single edge of `graph[current]`:
relax `dist[edge.dst]` through `current` and push `edge.dst` when it improved. -/
def relaxStep (current : String) (s : DijkstraState) (e : GEdge) : DijkstraState :=
  match s.dist current with
  | none => s
  | some dc =>
    match s.dist e.dst with
    | none =>
        { dist := fun x => if x = e.dst then some (dc + e.weight) else s.dist x
          stack := e.dst :: s.stack }
    | some dt =>
        if dc + e.weight < dt then
          { dist := fun x => if x = e.dst then some (dc + e.weight) else s.dist x
            stack := e.dst :: s.stack }
        else s

/-- The `while (!stackNodes.empty())` loop, with an explicit fuel bound; returns
`none` only when the fuel runs out before the stack empties. -/
def loopFuel (adj : String → List GEdge) : Nat → DijkstraState → Option (String → Option Nat)
  | 0, s => if s.stack.isEmpty then some s.dist else none
  | fuel + 1, s =>
    match s.stack with
    | [] => some s.dist
    | current :: rest =>
        loopFuel adj fuel ((adj current).foldl (relaxStep current) ⟨s.dist, rest⟩)

/-- The relaxation source `genresList[0]`. -/
def srcOf (p : Payload) : String := (genresList p).headD ""

/-- The state after the initialisation phase: `dist[source] = 0`, every other
distance still at its `INT_MAX` initial value, source pushed. -/
def initState (p : Payload) : DijkstraState :=
  { dist := fun x => if x = srcOf p then some 0 else none
    stack := [srcOf p] }

/-- Upper bound on all genre counts of the payload. -/
def maxCount (p : Payload) : Nat :=
  ((genresList p).map (genreCount p)).foldr max 0

/-- Uniform upper bound on every edge weight of the genre graph. -/
def weightBound (p : Payload) : Nat := 1 + maxCount p

/-- Strict upper bound on every finite distance the relaxation loop assigns. -/
def distBound (p : Payload) : Nat :=
  weightBound p * ((genresList p).length - 1) + 1

/-- Numeric value of a distance entry for the termination potential. -/
def distVal (B : Nat) : Option Nat → Nat
  | none => B
  | some d => d

@[simp]
theorem distVal_none (B : Nat) : distVal B none = B := rfl

@[simp]
theorem distVal_some (B d : Nat) : distVal B (some d) = d := rfl

def sumDist (B : Nat) (gs : List String) (dist : String → Option Nat) : Nat :=
  (gs.map (fun g => distVal B (dist g))).sum

/-- Termination potential of the relaxation loop. -/
def phi (p : Payload) (s : DijkstraState) : Nat :=
  sumDist (distBound p) (genresList p) s.dist + s.stack.length

/-- The whole relaxation phase, run with fuel equal to the initial potential. -/
def runDijkstra (p : Payload) : Option (String → Option Nat) :=
  loopFuel (buildGraph (genreCount p) (genresList p)) (phi p (initState p)) (initState p)

/-- The final `dist` map of `analyzeGenres`. -/
def finalDist (p : Payload) : String → Option Nat :=
  (runDijkstra p).getD (initState p).dist

/-- `INT_MAX`, the initial distance value. -/
def intMax : Nat := 2 ^ 31 - 1

/-- The score attached to a genre when the final `dist` map is poured into
`sortedGenres`. -/
def finalScore (p : Payload) (g : String) : Nat :=
  ((finalDist p) g).getD intMax

/-- Ascending order on a projected key; `std::sort` with comparator
`a.score < b.score` produces a list sorted this way (tie order is unspecified
in the source; the model fixes the stable one). -/
def ascOrder {α β : Type} [LinearOrder β] (f : α → β) (a b : α) : Prop :=
  f a ≤ f b

instance {α β : Type} [LinearOrder β] (f : α → β) : DecidableRel (ascOrder f) :=
  fun a b => inferInstanceAs (Decidable (f a ≤ f b))

instance {α β : Type} [LinearOrder β] (f : α → β) : IsTotal α (ascOrder f) :=
  ⟨fun a b => le_total (f a) (f b)⟩

instance {α β : Type} [LinearOrder β] (f : α → β) : IsTrans α (ascOrder f) :=
  ⟨fun _ _ _ h1 h2 => le_trans h1 h2⟩

/-- The function `analyzeGenres` of `src/main/movies_recommendations.cpp`. -/
def analyzeGenres (p : Payload) : List String :=
  if collectedGenres p = [] then
    ["Action", "Drama", "Comedy", "Thriller", "Sci-Fi"]
  else
    (List.insertionSort (ascOrder Prod.snd)
      ((genresList p).map (fun g => (g, finalScore p g)))).map Prod.fst

lemma genresList_nodup (p : Payload) : (genresList p).Nodup :=
  ((List.perm_insertionSort _ _).nodup_iff).mpr (List.nodup_dedup _)

lemma genresList_sorted (p : Payload) : (genresList p).Sorted (· ≤ ·) :=
  List.sorted_insertionSort _ _

lemma mem_genresList {p : Payload} {g : String} :
    g ∈ genresList p ↔ g ∈ collectedGenres p := by
  unfold genresList
  rw [(List.perm_insertionSort _ _).mem_iff, List.mem_dedup]

lemma mem_genresList_iff_counted {p : Payload} {g : String} :
    g ∈ genresList p ↔ 1 ≤ genreCount p g := by
  rw [mem_genresList, genreCount]
  exact List.count_pos_iff.symm

lemma genresList_eq_nil_iff {p : Payload} : genresList p = [] ↔ collectedGenres p = [] := by
  constructor
  · intro h
    by_contra hne
    rcases List.exists_mem_of_ne_nil _ hne with ⟨g, hg⟩
    have : g ∈ genresList p := mem_genresList.mpr hg
    simp [h] at this
  · intro h
    unfold genresList
    rw [h]
    rfl

lemma srcOf_mem {p : Payload} (h : collectedGenres p ≠ []) : srcOf p ∈ genresList p := by
  have hne : genresList p ≠ [] := fun hnil => h (genresList_eq_nil_iff.mp hnil)
  rcases List.exists_cons_of_ne_nil hne with ⟨a, l, hl⟩
  rw [srcOf, hl]
  simp

lemma srcOf_le {p : Payload} (h : collectedGenres p ≠ []) :
    ∀ g ∈ genresList p, srcOf p ≤ g := by
  intro g hg
  have hne : genresList p ≠ [] := fun hnil => h (genresList_eq_nil_iff.mp hnil)
  rcases List.exists_cons_of_ne_nil hne with ⟨a, l, hl⟩
  have hsort := genresList_sorted p
  rw [hl] at hsort hg
  have hsrc : srcOf p = a := by rw [srcOf, hl]; rfl
  rw [hsrc]
  rcases List.mem_cons.mp hg with hg | hg
  · exact le_of_eq hg.symm
  · exact List.rel_of_sorted_cons hsort g hg

lemma le_foldr_max {l : List Nat} {x : Nat} (h : x ∈ l) : x ≤ l.foldr max 0 := by
  induction l with
  | nil => simp at h
  | cons a m ih =>
    rcases List.mem_cons.mp h with h1 | h1
    · subst h1
      exact le_max_left _ _
    · exact le_trans (ih h1) (le_max_right _ _)

lemma count_le_maxCount {p : Payload} {g : String} (h : g ∈ genresList p) :
    genreCount p g ≤ maxCount p :=
  le_foldr_max (List.mem_map.mpr ⟨g, h, rfl⟩)

lemma mem_allPairs {gs : List String} {a b : String} (h : (a, b) ∈ allPairs gs) :
    a ∈ gs ∧ b ∈ gs := by
  induction gs with
  | nil => simp [allPairs] at h
  | cons x xs ih =>
    rw [allPairs, List.mem_append] at h
    rcases h with h | h
    · rcases List.mem_map.mp h with ⟨y, hy, heq⟩
      cases heq
      exact ⟨List.mem_cons_self _ _, List.mem_cons_of_mem _ hy⟩
    · rcases ih h with ⟨ha, hb⟩
      exact ⟨List.mem_cons_of_mem _ ha, List.mem_cons_of_mem _ hb⟩

lemma allPairs_ne {gs : List String} (hnd : gs.Nodup) {a b : String}
    (h : (a, b) ∈ allPairs gs) : a ≠ b := by
  induction gs with
  | nil => simp [allPairs] at h
  | cons x xs ih =>
    rw [allPairs, List.mem_append] at h
    rcases h with h | h
    · rcases List.mem_map.mp h with ⟨y, hy, heq⟩
      cases heq
      intro hab
      exact (List.nodup_cons.mp hnd).1 (hab ▸ hy)
    · exact ih (List.nodup_cons.mp hnd).2 h

lemma allPairs_complete {gs : List String} {a b : String}
    (ha : a ∈ gs) (hb : b ∈ gs) (hne : a ≠ b) :
    (a, b) ∈ allPairs gs ∨ (b, a) ∈ allPairs gs := by
  induction gs with
  | nil => simp at ha
  | cons x xs ih =>
    rcases List.mem_cons.mp ha with hax | hax
    · subst hax
      have hbxs : b ∈ xs := by
        rcases List.mem_cons.mp hb with h | h
        · exact absurd h.symm hne
        · exact h
      left
      rw [allPairs, List.mem_append]
      exact Or.inl (List.mem_map.mpr ⟨b, hbxs, rfl⟩)
    · rcases List.mem_cons.mp hb with hbx | hbx
      · subst hbx
        right
        rw [allPairs, List.mem_append]
        exact Or.inl (List.mem_map.mpr ⟨a, hax, rfl⟩)
      · rcases ih hax hbx with h | h
        · left
          rw [allPairs, List.mem_append]
          exact Or.inr h
        · right
          rw [allPairs, List.mem_append]
          exact Or.inr h

/-- The edge that the processing of index pair `q` contributes to the adjacency
list of node `x` (at most one, provided `q.1 ≠ q.2`). -/
def pairEdges (cnt : String → Nat) (x : String) (q : String × String) : Option GEdge :=
  if x = q.1 then some ⟨q.2, edgeWeight cnt q.1 q.2⟩
  else if x = q.2 then some ⟨q.1, edgeWeight cnt q.1 q.2⟩
  else none

lemma addPair_eq (cnt : String → Nat) (adj : String → List GEdge)
    {q : String × String} (hq : q.1 ≠ q.2) (x : String) :
    addPair cnt adj q x = adj x ++ (pairEdges cnt x q).toList := by
  unfold addPair pairEdges
  by_cases h1 : x = q.1
  · have h2 : ¬ x = q.2 := fun h => hq (h1.symm.trans h)
    simp only [if_neg h2, if_pos h1, Option.toList_some]
  · by_cases h2 : x = q.2
    · simp only [if_pos h2, if_neg h1, Option.toList_some]
    · simp only [if_neg h1, if_neg h2, Option.toList_none, List.append_nil]

lemma buildGraphAux_eq (cnt : String → Nat) (L : List (String × String))
    (hL : ∀ q ∈ L, q.1 ≠ q.2) (adj : String → List GEdge) (x : String) :
    buildGraphAux cnt L adj x = adj x ++ L.filterMap (pairEdges cnt x) := by
  induction L generalizing adj with
  | nil => simp [buildGraphAux]
  | cons q L ih =>
    have hq : q.1 ≠ q.2 := hL q (List.mem_cons_self _ _)
    have hL' : ∀ r ∈ L, r.1 ≠ r.2 := fun r hr => hL r (List.mem_cons_of_mem _ hr)
    show buildGraphAux cnt L (addPair cnt adj q) x = _
    rw [ih hL' (addPair cnt adj q), addPair_eq cnt adj hq, List.filterMap_cons,
      List.append_assoc]
    cases h : pairEdges cnt x q <;> simp [Option.toList]

lemma mem_buildGraph_iff {cnt : String → Nat} {gs : List String} (hnd : gs.Nodup)
    {x : String} {e : GEdge} :
    e ∈ buildGraph cnt gs x ↔ ∃ q ∈ allPairs gs, pairEdges cnt x q = some e := by
  unfold buildGraph
  rw [buildGraphAux_eq cnt _ (fun q hq => allPairs_ne hnd hq) _ x]
  simp [List.mem_filterMap]

lemma edgeWeight_comm (cnt : String → Nat) (a b : String) :
    edgeWeight cnt a b = edgeWeight cnt b a := by
  unfold edgeWeight
  rw [Nat.dist_comm]

lemma buildGraph_edge_spec {cnt : String → Nat} {gs : List String} (hnd : gs.Nodup)
    {x : String} {e : GEdge} (h : e ∈ buildGraph cnt gs x) :
    x ∈ gs ∧ e.dst ∈ gs ∧ e.dst ≠ x ∧ e.weight = edgeWeight cnt x e.dst := by
  rcases (mem_buildGraph_iff hnd).mp h with ⟨q, hq, hpe⟩
  have hmem := mem_allPairs hq
  have hne := allPairs_ne hnd hq
  unfold pairEdges at hpe
  by_cases h1 : x = q.1
  · rw [if_pos h1] at hpe
    cases hpe
    refine ⟨h1 ▸ hmem.1, hmem.2, ?_, ?_⟩
    · show q.2 ≠ x
      intro hc
      exact hne (hc.trans h1).symm
    · show edgeWeight cnt q.1 q.2 = edgeWeight cnt x q.2
      rw [← h1]
  · rw [if_neg h1] at hpe
    by_cases h2 : x = q.2
    · rw [if_pos h2] at hpe
      cases hpe
      refine ⟨h2 ▸ hmem.2, hmem.1, ?_, ?_⟩
      · show q.1 ≠ x
        intro hc
        exact hne (hc.trans h2)
      · show edgeWeight cnt q.1 q.2 = edgeWeight cnt x q.1
        rw [← h2, edgeWeight_comm]
    · rw [if_neg h2] at hpe
      cases hpe

lemma buildGraph_complete {cnt : String → Nat} {gs : List String} (hnd : gs.Nodup)
    {x b : String} (hx : x ∈ gs) (hb : b ∈ gs) (hne : b ≠ x) :
    (⟨b, edgeWeight cnt x b⟩ : GEdge) ∈ buildGraph cnt gs x := by
  rcases allPairs_complete hx hb (fun h => hne h.symm) with h | h
  · exact (mem_buildGraph_iff hnd).mpr ⟨(x, b), h, by simp [pairEdges]⟩
  · refine (mem_buildGraph_iff hnd).mpr ⟨(b, x), h, ?_⟩
    have hxb : ¬ x = b := fun h' => hne h'.symm
    unfold pairEdges
    simp [hxb, edgeWeight_comm cnt b x]

lemma buildGraph_weight_pos {cnt : String → Nat} {gs : List String} (hnd : gs.Nodup)
    {x : String} {e : GEdge} (h : e ∈ buildGraph cnt gs x) : 1 ≤ e.weight := by
  rw [(buildGraph_edge_spec hnd h).2.2.2]
  exact Nat.le_add_right 1 _

lemma buildGraph_weight_le {p : Payload} {x : String} {e : GEdge}
    (h : e ∈ buildGraph (genreCount p) (genresList p) x) : e.weight ≤ weightBound p := by
  rcases buildGraph_edge_spec (genresList_nodup p) h with ⟨hx, hd, _, hw⟩
  rw [hw]
  unfold edgeWeight weightBound
  have h1 : Nat.dist (genreCount p x) (genreCount p e.dst) ≤ maxCount p := by
    have hx' := count_le_maxCount hx
    have hd' := count_le_maxCount hd
    unfold Nat.dist
    omega
  omega

/-- Number of still-infinite distance entries among the graph nodes. -/
def noneCount (gs : List String) (dist : String → Option Nat) : Nat :=
  (gs.map (fun g => if (dist g).isNone then 1 else 0)).sum

/-- Loop invariant: every finite distance is so small that it stays below `B`
even after `noneCount` more relaxations of weight at most `W` each. -/
def BoundInv (gs : List String) (W B : Nat) (dist : String → Option Nat) : Prop :=
  ∀ v d, dist v = some d → d + W * noneCount gs dist < B

/-- Termination potential, parametric form. -/
def phiS (B : Nat) (gs : List String) (s : DijkstraState) : Nat :=
  sumDist B gs s.dist + s.stack.length

lemma sum_update {gs : List String} (hnd : gs.Nodup) {a : String} (ha : a ∈ gs)
    (f f' : String → Nat) (hother : ∀ g, g ≠ a → f' g = f g) :
    (gs.map f').sum + f a = (gs.map f).sum + f' a := by
  induction gs with
  | nil => simp at ha
  | cons x xs ih =>
    have hnd' := List.nodup_cons.mp hnd
    rcases List.mem_cons.mp ha with h1 | h1
    · subst h1
      have hxs : xs.map f' = xs.map f :=
        List.map_congr_left (fun g hg => hother g (fun he => hnd'.1 (he ▸ hg)))
      simp only [List.map_cons, List.sum_cons, hxs]
      omega
    · have hx : f' x = f x := hother x (fun he => hnd'.1 (he ▸ h1))
      have hrec := ih hnd'.2 h1
      simp only [List.map_cons, List.sum_cons, hx]
      omega

lemma single_le_sum_map {gs : List String} {f : String → Nat} {a : String}
    (ha : a ∈ gs) : f a ≤ (gs.map f).sum := by
  induction gs with
  | nil => simp at ha
  | cons x xs ih =>
    rcases List.mem_cons.mp ha with h1 | h1
    · subst h1
      simp only [List.map_cons, List.sum_cons]
      exact Nat.le_add_right _ _
    · simp only [List.map_cons, List.sum_cons]
      exact le_trans (ih h1) (Nat.le_add_left _ _)

lemma sum_map_le_length {gs : List String} {f : String → Nat}
    (hle : ∀ g, f g ≤ 1) : (gs.map f).sum ≤ gs.length := by
  induction gs with
  | nil => simp
  | cons x xs ih =>
    simp only [List.map_cons, List.sum_cons, List.length_cons]
    have := hle x
    omega

lemma sum_indicator_lt_length {gs : List String} {f : String → Nat}
    (hle : ∀ g, f g ≤ 1) {a : String} (ha : a ∈ gs) (hfa : f a = 0) :
    (gs.map f).sum + 1 ≤ gs.length := by
  induction gs with
  | nil => simp at ha
  | cons x xs ih =>
    rcases List.mem_cons.mp ha with h1 | h1
    · subst h1
      have h9 : (xs.map f).sum ≤ xs.length := sum_map_le_length hle
      simp only [List.map_cons, List.sum_cons, List.length_cons, hfa]
      omega
    · have := ih h1
      have := hle x
      simp only [List.map_cons, List.sum_cons, List.length_cons]
      omega

/-- Case analysis of one relaxation: either nothing happens, or the distance of
`e.dst` strictly improves and `e.dst` is pushed. -/
lemma relaxStep_cases (c : String) (s : DijkstraState) (e : GEdge) :
    relaxStep c s e = s ∨
    ∃ dc, s.dist c = some dc ∧
      relaxStep c s e =
        ⟨fun x => if x = e.dst then some (dc + e.weight) else s.dist x,
          e.dst :: s.stack⟩ ∧
      (∀ dt, s.dist e.dst = some dt → dc + e.weight < dt) := by
  cases hc : s.dist c with
  | none =>
    left
    simp [relaxStep, hc]
  | some dc =>
    cases hd : s.dist e.dst with
    | none =>
      refine Or.inr ⟨dc, rfl, ?_, ?_⟩
      · simp [relaxStep, hc, hd]
      · intro dt h
        cases h
    | some dt =>
      by_cases hlt : dc + e.weight < dt
      · refine Or.inr ⟨dc, rfl, ?_, ?_⟩
        · simp [relaxStep, hc, hd, hlt]
        · intro dt' h
          cases h
          exact hlt
      · left
        simp [relaxStep, hc, hd, hlt]

lemma relaxStep_bound_phi {gs : List String} {W B : Nat} (hnd : gs.Nodup)
    {c : String} {e : GEdge} {s : DijkstraState}
    (he : e.dst ∈ gs) (hwW : e.weight ≤ W)
    (hB : BoundInv gs W B s.dist) :
    BoundInv gs W B (relaxStep c s e).dist ∧
    phiS B gs (relaxStep c s e) ≤ phiS B gs s := by
  rcases relaxStep_cases c s e with h | ⟨dc, hdc, heq, hdec⟩
  · rw [h]
    exact ⟨hB, le_refl _⟩
  · rw [heq]
    set dist' := fun x => if x = e.dst then some (dc + e.weight) else s.dist x with hdist'
    have hupd : ∀ g, g ≠ e.dst → dist' g = s.dist g := by
      intro g hg
      simp only [hdist', if_neg hg]
    have hat : dist' e.dst = some (dc + e.weight) := by
      simp only [hdist', if_pos rfl]
    have hcnt := sum_update hnd he
      (fun g => if (s.dist g).isNone then 1 else 0)
      (fun g => if (dist' g).isNone then 1 else 0)
      (fun g hg => by simp only [hupd g hg])
    have hsum := sum_update hnd he
      (fun g => distVal B (s.dist g))
      (fun g => distVal B (dist' g))
      (fun g hg => by simp only [hupd g hg])
    simp only [hat, Option.isNone_some, Bool.false_eq_true, if_false, distVal_some,
      Nat.add_zero] at hcnt hsum
    have hkc := hB c dc hdc
    have hkc' : dc + W * ((gs.map fun g => if (s.dist g).isNone then 1 else 0).sum) < B := hkc
    constructor
    · intro v d hv
      dsimp only at hv
      rw [show noneCount gs dist' = ((gs.map fun g => if (dist' g).isNone then 1 else 0).sum) from rfl]
      by_cases hvd : v = e.dst
      · subst hvd
        rw [hat] at hv
        cases hv
        cases hold : s.dist e.dst with
        | none =>
          simp only [hold, Option.isNone_none, if_true, if_pos] at hcnt
          have hk1 : (1 : Nat) ≤ ((gs.map fun g => if (s.dist g).isNone then 1 else 0).sum) := by
            have := single_le_sum_map (f := fun g => if (s.dist g).isNone then 1 else 0) he
            simp only [hold, Option.isNone_none, if_true] at this
            exact this
          have hWk : W * ((gs.map fun g => if (dist' g).isNone then 1 else 0).sum) + W =
              W * ((gs.map fun g => if (s.dist g).isNone then 1 else 0).sum) := by
            have h1 : ((gs.map fun g => if (dist' g).isNone then 1 else 0).sum) + 1 =
                ((gs.map fun g => if (s.dist g).isNone then 1 else 0).sum) := by omega
            rw [← h1]
            ring
          omega
        | some dt =>
          have hlt := hdec dt hold
          have hkt : dt + W * ((gs.map fun g => if (s.dist g).isNone then 1 else 0).sum) < B :=
            hB e.dst dt hold
          simp only [hold, Option.isNone_some, Bool.false_eq_true, if_false] at hcnt
          have hWeq : W * ((gs.map fun g => if (dist' g).isNone then 1 else 0).sum) =
              W * ((gs.map fun g => if (s.dist g).isNone then 1 else 0).sum) := by
            have heqs : ((gs.map fun g => if (dist' g).isNone then 1 else 0).sum) =
                ((gs.map fun g => if (s.dist g).isNone then 1 else 0).sum) := by omega
            rw [heqs]
          omega
      · rw [hupd v hvd] at hv
        have hkv : d + W * ((gs.map fun g => if (s.dist g).isNone then 1 else 0).sum) < B :=
          hB v d hv
        have hcle : ((gs.map fun g => if (dist' g).isNone then 1 else 0).sum) ≤
            ((gs.map fun g => if (s.dist g).isNone then 1 else 0).sum) := by
          cases hold : s.dist e.dst with
          | none =>
            simp only [hold, Option.isNone_none, if_true] at hcnt
            omega
          | some dt =>
            simp only [hold, Option.isNone_some, Bool.false_eq_true, if_false] at hcnt
            omega
        have := Nat.mul_le_mul_left W hcle
        omega
    · show sumDist B gs dist' + (e.dst :: s.stack).length ≤ sumDist B gs s.dist + s.stack.length
      unfold sumDist
      simp only [List.length_cons]
      cases hold : s.dist e.dst with
      | none =>
        simp only [hold, distVal_none, Option.isNone_none, if_true] at hsum hcnt
        have hk1 : (1 : Nat) ≤ ((gs.map fun g => if (s.dist g).isNone then 1 else 0).sum) := by
          have := single_le_sum_map (f := fun g => if (s.dist g).isNone then 1 else 0) he
          simp only [hold, Option.isNone_none, if_true] at this
          exact this
        have hWk : W * 1 ≤ W * ((gs.map fun g => if (s.dist g).isNone then 1 else 0).sum) :=
          Nat.mul_le_mul_left W hk1
        omega
      | some dt =>
        have hlt := hdec dt hold
        simp only [hold, distVal_some] at hsum
        omega

lemma foldl_relax_bound_phi {gs : List String} {W B : Nat} (hnd : gs.Nodup)
    {c : String} {L : List GEdge}
    (hL : ∀ e ∈ L, e.dst ∈ gs ∧ e.weight ≤ W) :
    ∀ s : DijkstraState, BoundInv gs W B s.dist →
      BoundInv gs W B (L.foldl (relaxStep c) s).dist ∧
      phiS B gs (L.foldl (relaxStep c) s) ≤ phiS B gs s := by
  induction L with
  | nil => exact fun s hB => ⟨hB, le_refl _⟩
  | cons e L ih =>
    intro s hB
    have he := hL e (List.mem_cons_self _ _)
    have hstep := relaxStep_bound_phi hnd (c := c) he.1 he.2 hB
    have hrec := ih (fun e' he' => hL e' (List.mem_cons_of_mem _ he')) _ hstep.1
    exact ⟨hrec.1, le_trans hrec.2 hstep.2⟩

lemma loopFuel_isSome {adj : String → List GEdge} {gs : List String} {W B : Nat}
    (hnd : gs.Nodup)
    (hadj : ∀ x e, e ∈ adj x → e.dst ∈ gs ∧ e.weight ≤ W) :
    ∀ fuel (s : DijkstraState), BoundInv gs W B s.dist → phiS B gs s ≤ fuel →
      (loopFuel adj fuel s).isSome := by
  intro fuel
  induction fuel with
  | zero =>
    rintro ⟨dist, stack⟩ hB hphi
    unfold phiS at hphi
    have : stack.length = 0 := by
      simp only at hphi
      omega
    rw [List.length_eq_zero] at this
    subst this
    simp [loopFuel]
  | succ n ih =>
    rintro ⟨dist, stack⟩ hB hphi
    cases stack with
    | nil => simp [loopFuel]
    | cons current rest =>
      show (loopFuel adj n ((adj current).foldl (relaxStep current) ⟨dist, rest⟩)).isSome
      have hfold := foldl_relax_bound_phi hnd (c := current)
        (fun e he => hadj current e he) ⟨dist, rest⟩ hB
      apply ih _ hfold.1
      have : phiS B gs ⟨dist, rest⟩ + 1 = phiS B gs ⟨dist, current :: rest⟩ := by
        unfold phiS
        simp only [List.length_cons]
        omega
      omega

lemma initState_bound (p : Payload) :
    BoundInv (genresList p) (weightBound p) (distBound p) (initState p).dist := by
  intro v d hv
  unfold initState at hv
  simp only at hv
  by_cases hvs : v = srcOf p
  · rw [if_pos hvs] at hv
    cases hv
    unfold distBound
    rcases eq_or_ne (collectedGenres p) [] with hc | hc
    · have hgs : genresList p = [] := genresList_eq_nil_iff.mpr hc
      unfold noneCount
      rw [hgs]
      simp
    · have hsrc := srcOf_mem hc
      have hle : ∀ g, (fun g => if (((initState p).dist) g).isNone then 1 else 0) g ≤ 1 := by
        intro g
        dsimp only
        split <;> omega
      have hfa : (fun g => if (((initState p).dist) g).isNone then 1 else 0) (srcOf p) = 0 := by
        unfold initState
        simp
      have hlt := sum_indicator_lt_length hle hsrc hfa
      have hWmono : weightBound p * noneCount (genresList p) (initState p).dist ≤
          weightBound p * ((genresList p).length - 1) := by
        apply Nat.mul_le_mul_left
        unfold noneCount
        unfold initState at hlt ⊢
        omega
      omega
  · rw [if_neg hvs] at hv
    cases hv

/-- The adjacency facts of the genre graph needed for termination. -/
lemma adjOf_ok (p : Payload) :
    ∀ x e, e ∈ buildGraph (genreCount p) (genresList p) x →
      e.dst ∈ genresList p ∧ e.weight ≤ weightBound p :=
  fun _ _ he =>
    ⟨(buildGraph_edge_spec (genresList_nodup p) he).2.1, buildGraph_weight_le he⟩

lemma runDijkstra_isSome (p : Payload) : (runDijkstra p).isSome :=
  loopFuel_isSome (genresList_nodup p) (adjOf_ok p) _ _ (initState_bound p) (le_refl _)

lemma loopFuel_invariant {adj : String → List GEdge} (P : DijkstraState → Prop)
    (hstep : ∀ dist current rest, P ⟨dist, current :: rest⟩ →
      P ((adj current).foldl (relaxStep current) ⟨dist, rest⟩)) :
    ∀ fuel (s : DijkstraState) d, loopFuel adj fuel s = some d → P s → P ⟨d, []⟩ := by
  intro fuel
  induction fuel with
  | zero =>
    rintro ⟨dist, stack⟩ d hrun hP
    cases stack with
    | nil =>
      simp only [loopFuel, List.isEmpty_nil, if_true, Option.some.injEq] at hrun
      subst hrun
      exact hP
    | cons a l => simp [loopFuel] at hrun
  | succ n ih =>
    rintro ⟨dist, stack⟩ d hrun hP
    cases stack with
    | nil =>
      simp only [loopFuel, Option.some.injEq] at hrun
      subst hrun
      exact hP
    | cons current rest =>
      exact ih _ d hrun (hstep dist current rest hP)

lemma relaxStep_stack_mono {c : String} {s : DijkstraState} {e : GEdge} {v : String}
    (h : v ∈ s.stack) : v ∈ (relaxStep c s e).stack := by
  rcases relaxStep_cases c s e with heq | ⟨dc, _, heq, _⟩ <;> rw [heq]
  · exact h
  · exact List.mem_cons_of_mem _ h

lemma relaxStep_isSome_mono {c : String} {s : DijkstraState} {e : GEdge} {x : String}
    (h : (s.dist x).isSome) : ((relaxStep c s e).dist x).isSome := by
  rcases relaxStep_cases c s e with heq | ⟨dc, _, heq, _⟩ <;> rw [heq]
  · exact h
  · dsimp only
    by_cases hx : x = e.dst
    · rw [if_pos hx]
      rfl
    · rw [if_neg hx]
      exact h

lemma relaxStep_dst_isSome {c : String} {s : DijkstraState} {e : GEdge}
    (hc : (s.dist c).isSome) : ((relaxStep c s e).dist e.dst).isSome := by
  rcases Option.isSome_iff_exists.mp hc with ⟨dc, hdc⟩
  cases hd : s.dist e.dst with
  | none =>
    have : relaxStep c s e =
        ⟨fun x => if x = e.dst then some (dc + e.weight) else s.dist x, e.dst :: s.stack⟩ := by
      simp [relaxStep, hdc, hd]
    rw [this]
    simp
  | some dt =>
    apply relaxStep_isSome_mono
    rw [hd]
    rfl

lemma foldl_relax_isSome_mono {c : String} {L : List GEdge} :
    ∀ s : DijkstraState, ∀ x, (s.dist x).isSome →
      ((L.foldl (relaxStep c) s).dist x).isSome := by
  induction L with
  | nil => exact fun s x h => h
  | cons e L ih => exact fun s x h => ih _ x (relaxStep_isSome_mono h)

lemma foldl_relax_stack_mono {c : String} {L : List GEdge} :
    ∀ s : DijkstraState, ∀ v ∈ s.stack, v ∈ (L.foldl (relaxStep c) s).stack := by
  induction L with
  | nil => exact fun s v h => h
  | cons e L ih => exact fun s v h => ih _ v (relaxStep_stack_mono h)

lemma relaxStep_src_zero {src c : String} {s : DijkstraState} {e : GEdge}
    (h1 : s.dist src = some 0) (hw : 1 ≤ e.weight) :
    (relaxStep c s e).dist src = some 0 := by
  rcases relaxStep_cases c s e with heq | ⟨dc, hdc, heq, hdec⟩ <;> rw [heq]
  · exact h1
  · dsimp only
    by_cases hx : src = e.dst
    · exfalso
      have := hdec 0 (hx ▸ h1)
      omega
    · rw [if_neg hx]
      exact h1

lemma relaxStep_pos {src c : String} {s : DijkstraState} {e : GEdge}
    (h2 : ∀ g, g ≠ src → ∀ d, s.dist g = some d → 1 ≤ d) (hw : 1 ≤ e.weight) :
    ∀ g, g ≠ src → ∀ d, (relaxStep c s e).dist g = some d → 1 ≤ d := by
  rcases relaxStep_cases c s e with heq | ⟨dc, hdc, heq, hdec⟩ <;> rw [heq]
  · exact h2
  · intro g hg d hd
    dsimp only at hd
    by_cases hx : g = e.dst
    · rw [if_pos hx] at hd
      cases hd
      omega
    · rw [if_neg hx] at hd
      exact h2 g hg d hd

lemma foldl_relax_src_pos {src : String} (c : String) {L : List GEdge}
    (hL : ∀ e ∈ L, 1 ≤ e.weight) :
    ∀ s : DijkstraState, s.dist src = some 0 →
      (∀ g, g ≠ src → ∀ d, s.dist g = some d → 1 ≤ d) →
      (L.foldl (relaxStep c) s).dist src = some 0 ∧
      (∀ g, g ≠ src → ∀ d, (L.foldl (relaxStep c) s).dist g = some d → 1 ≤ d) := by
  induction L with
  | nil => exact fun s h1 h2 => ⟨h1, h2⟩
  | cons e L ih =>
    intro s h1 h2
    have hw := hL e (List.mem_cons_self _ _)
    exact ih (fun f hf => hL f (List.mem_cons_of_mem _ hf))
      _ (relaxStep_src_zero h1 hw) (relaxStep_pos h2 hw)

lemma foldl_relax_targets {c : String} {L : List GEdge} :
    ∀ s : DijkstraState, (s.dist c).isSome →
      ∀ e ∈ L, ((L.foldl (relaxStep c) s).dist e.dst).isSome := by
  induction L with
  | nil =>
    intro s _ e he
    simp at he
  | cons f L ih =>
    intro s hc e he
    rw [List.foldl_cons]
    rcases List.mem_cons.mp he with h1 | h1
    · cases h1
      apply foldl_relax_isSome_mono
      exact relaxStep_dst_isSome hc
    · exact ih _ (relaxStep_isSome_mono hc) e h1

/-- Facts about the distance map that survive the whole loop. -/
def DistInv (p : Payload) (s : DijkstraState) : Prop :=
  s.dist (srcOf p) = some 0 ∧
  (∀ g, g ≠ srcOf p → ∀ d, s.dist g = some d → 1 ≤ d) ∧
  (srcOf p ∈ s.stack ∨ ∀ g ∈ genresList p, (s.dist g).isSome)

lemma dijkstra_inv_step (p : Payload) :
    ∀ dist current rest, DistInv p ⟨dist, current :: rest⟩ →
      DistInv p (((buildGraph (genreCount p) (genresList p)) current).foldl
        (relaxStep current) ⟨dist, rest⟩) := by
  intro dist current rest hP
  obtain ⟨h1, h2, h3⟩ := hP
  have hwpos : ∀ e ∈ buildGraph (genreCount p) (genresList p) current, 1 ≤ e.weight :=
    fun _ he => buildGraph_weight_pos (genresList_nodup p) he
  have h12 := foldl_relax_src_pos current hwpos ⟨dist, rest⟩ h1 h2
  refine ⟨h12.1, h12.2, ?_⟩
  rcases h3 with h3 | h3
  · rcases List.mem_cons.mp h3 with hcur | hrest
    · -- the source is being popped: afterwards every genre has a finite distance
      right
      intro g hg
      by_cases hgs : g = srcOf p
      · rw [hgs, h12.1]
        rfl
      · have hsrc : srcOf p ∈ genresList p := by
          apply srcOf_mem
          intro hc
          rw [genresList_eq_nil_iff.mpr hc] at hg
          simp at hg
        have hedge : (⟨g, edgeWeight (genreCount p) (srcOf p) g⟩ : GEdge) ∈
            buildGraph (genreCount p) (genresList p) (srcOf p) :=
          buildGraph_complete (genresList_nodup p) hsrc hg hgs
        have hcs : ((⟨dist, rest⟩ : DijkstraState).dist current).isSome := by
          show (dist current).isSome
          rw [← hcur]
          have h1' : dist (srcOf p) = some 0 := h1
          rw [h1']
          rfl
        have hedge' : (⟨g, edgeWeight (genreCount p) (srcOf p) g⟩ : GEdge) ∈
            buildGraph (genreCount p) (genresList p) current := by
          rw [← hcur]
          exact hedge
        have hfin := foldl_relax_targets (c := current) ⟨dist, rest⟩ hcs
          ⟨g, edgeWeight (genreCount p) (srcOf p) g⟩ hedge'
        exact hfin
    · left
      exact foldl_relax_stack_mono _ _ hrest
  · right
    exact fun g hg => foldl_relax_isSome_mono _ _ (h3 g hg)

lemma finalDist_facts (p : Payload) :
    finalDist p (srcOf p) = some 0 ∧
    (∀ g, g ≠ srcOf p → ∀ d, finalDist p g = some d → 1 ≤ d) ∧
    (∀ g ∈ genresList p, (finalDist p g).isSome) := by
  obtain ⟨d, hd⟩ := Option.isSome_iff_exists.mp (runDijkstra_isSome p)
  have hinit : DistInv p (initState p) := by
    refine ⟨?_, ?_, Or.inl ?_⟩
    · unfold initState
      simp
    · intro g hg dd hdd
      unfold initState at hdd
      simp only [if_neg hg] at hdd
      cases hdd
    · unfold initState
      simp
  have hfin := loopFuel_invariant (DistInv p) (dijkstra_inv_step p) _ _ d hd hinit
  obtain ⟨f1, f2, f3⟩ := hfin
  have hfd : finalDist p = d := by
    unfold finalDist
    rw [hd]
    rfl
  rw [hfd]
  refine ⟨f1, f2, ?_⟩
  rcases f3 with f3 | f3
  · simp at f3
  · exact f3

lemma analyzeGenres_else (p : Payload) (h : collectedGenres p ≠ []) :
    analyzeGenres p = (List.insertionSort (ascOrder Prod.snd)
      ((genresList p).map (fun g => (g, finalScore p g)))).map Prod.fst := by
  unfold analyzeGenres
  rw [if_neg h]

lemma analyzeGenres_perm (p : Payload) (h : collectedGenres p ≠ []) :
    (analyzeGenres p).Perm (genresList p) := by
  rw [analyzeGenres_else p h]
  have hp := (List.perm_insertionSort (ascOrder (Prod.snd : String × Nat → Nat))
    ((genresList p).map (fun g => (g, finalScore p g)))).map Prod.fst
  rw [List.map_map] at hp
  have hid : (genresList p).map (Prod.fst ∘ fun g => (g, finalScore p g)) = genresList p := by
    rw [show (Prod.fst ∘ fun g : String => (g, finalScore p g)) = id from rfl, List.map_id]
  rw [hid] at hp
  exact hp

lemma mem_sorted_pairs {p : Payload} {q : String × Nat}
    (h : q ∈ List.insertionSort (ascOrder Prod.snd)
      ((genresList p).map (fun g => (g, finalScore p g)))) :
    q.2 = finalScore p q.1 ∧ q.1 ∈ genresList p := by
  rw [List.mem_insertionSort] at h
  rcases List.mem_map.mp h with ⟨g, hg, rfl⟩
  exact ⟨rfl, hg⟩

lemma analyzeGenres_pairwise (p : Payload) (h : collectedGenres p ≠ []) :
    (analyzeGenres p).Pairwise (fun a b => finalScore p a ≤ finalScore p b) := by
  rw [analyzeGenres_else p h, List.pairwise_map]
  have hs : (List.insertionSort (ascOrder Prod.snd)
      ((genresList p).map (fun g => (g, finalScore p g)))).Sorted
        (ascOrder (Prod.snd : String × Nat → Nat)) :=
    List.sorted_insertionSort _ _
  refine List.Pairwise.imp_of_mem ?_ hs
  intro a b ha hb hab
  have ha' := mem_sorted_pairs ha
  have hb' := mem_sorted_pairs hb
  rw [← ha'.1, ← hb'.1]
  exact hab

lemma finalScore_src (p : Payload) : finalScore p (srcOf p) = 0 := by
  unfold finalScore
  rw [(finalDist_facts p).1]
  rfl

lemma finalScore_pos (p : Payload) {g : String} (hg : g ∈ genresList p)
    (hne : g ≠ srcOf p) : 1 ≤ finalScore p g := by
  obtain ⟨f1, f2, f3⟩ := finalDist_facts p
  obtain ⟨d, hd⟩ := Option.isSome_iff_exists.mp (f3 g hg)
  unfold finalScore
  rw [hd]
  exact f2 g hne d hd

lemma analyzeGenres_head (p : Payload) (h : collectedGenres p ≠ []) :
    (analyzeGenres p).head? = some (srcOf p) := by
  have hperm := analyzeGenres_perm p h
  have hpw := analyzeGenres_pairwise p h
  have hne : analyzeGenres p ≠ [] := by
    intro hnil
    rw [hnil] at hperm
    have : genresList p = [] := hperm.symm.eq_nil
    exact h (genresList_eq_nil_iff.mp this)
  rcases List.exists_cons_of_ne_nil hne with ⟨a, t, hat⟩
  rw [hat]
  by_cases has : a = srcOf p
  · rw [has]
    rfl
  · exfalso
    have hag : a ∈ genresList p := hperm.subset (hat ▸ List.mem_cons_self a t)
    have hsrcout : srcOf p ∈ analyzeGenres p :=
      hperm.mem_iff.mpr (srcOf_mem h)
    rw [hat] at hsrcout
    rcases List.mem_cons.mp hsrcout with hsa | hst
    · exact has hsa.symm
    · rw [hat] at hpw
      have hrel := List.rel_of_pairwise_cons hpw hst
      rw [finalScore_src p] at hrel
      have := finalScore_pos p hag has
      omega

/-- C1: for every payload with at least two counted genres, the genre graph is
fully connected: for distinct counted genres `g1, g2` it contains an edge
`g1 → g2` with weight `1 + |count g1 - count g2|` (applying the statement with
the two genres swapped gives the reverse edge, with the same weight by symmetry
of the absolute difference); every edge weight is at least 1; and no adjacency
list contains a self-loop. -/
theorem genreGraph_fullyConnected (p : Payload)
    (_h2 : 2 ≤ (genresList p).length) :
    (∀ g1 g2, g1 ∈ genresList p → g2 ∈ genresList p → g1 ≠ g2 →
      (⟨g2, 1 + Nat.dist (genreCount p g1) (genreCount p g2)⟩ : GEdge) ∈
        buildGraph (genreCount p) (genresList p) g1) ∧
    (∀ x e, e ∈ buildGraph (genreCount p) (genresList p) x → 1 ≤ e.weight) ∧
    (∀ x e, e ∈ buildGraph (genreCount p) (genresList p) x → e.dst ≠ x) := by
  refine ⟨?_, ?_, ?_⟩
  · intro g1 g2 h1 hg2 hne
    exact buildGraph_complete (genresList_nodup p) h1 hg2 (fun hc => hne hc.symm)
  · intro x e he
    exact buildGraph_weight_pos (genresList_nodup p) he
  · intro x e he
    exact (buildGraph_edge_spec (genresList_nodup p) he).2.2.1

theorem genreGraph_fullyConnected_witness :
    (⟨"Drama", 1 + Nat.dist (genreCount ⟨[⟨some ["Action", "Drama", "Drama"]⟩], []⟩ "Action")
        (genreCount ⟨[⟨some ["Action", "Drama", "Drama"]⟩], []⟩ "Drama")⟩ : GEdge) ∈
      buildGraph (genreCount ⟨[⟨some ["Action", "Drama", "Drama"]⟩], []⟩)
        (genresList ⟨[⟨some ["Action", "Drama", "Drama"]⟩], []⟩) "Action" :=
  (genreGraph_fullyConnected ⟨[⟨some ["Action", "Drama", "Drama"]⟩], []⟩
      (by rw [genresList, List.length_insertionSort]; decide)).1
    "Action" "Drama" (mem_genresList.mpr (by decide)) (mem_genresList.mpr (by decide))
    (by decide)

/-- C2: the stack-ordered relaxation loop terminates on every payload: a node
is pushed only together with a strict decrease of its recorded distance (first
conjunct), and running the loop with the fuel given by the termination
potential reaches the empty stack on every payload (second conjunct), so
`analyzeGenres` is total. -/
theorem relaxation_terminates (p : Payload) :
    (∀ c (s : DijkstraState) e, relaxStep c s e = s ∨
      ∃ dc, s.dist c = some dc ∧
        (relaxStep c s e).stack = e.dst :: s.stack ∧
        (relaxStep c s e).dist e.dst = some (dc + e.weight) ∧
        ∀ dt, s.dist e.dst = some dt → dc + e.weight < dt) ∧
    ∃ d, runDijkstra p = some d := by
  constructor
  · intro c s e
    rcases relaxStep_cases c s e with h | ⟨dc, hdc, heq, hdec⟩
    · exact Or.inl h
    · refine Or.inr ⟨dc, hdc, ?_, ?_, hdec⟩
      · rw [heq]
      · rw [heq]
        simp
  · exact Option.isSome_iff_exists.mp (runDijkstra_isSome p)

/-- C9: when the watchlist contributes no genres and no user carries a
`preferences.movies` value, `analyzeGenres` returns the hard-coded default
list. -/
theorem analyzeGenres_defaults (p : Payload)
    (hw : ∀ m ∈ p.watchlist, m.genres.getD [] = [])
    (hu : ∀ u ∈ p.users, u.moviePref = none) :
    analyzeGenres p = ["Action", "Drama", "Comedy", "Thriller", "Sci-Fi"] := by
  have hc : collectedGenres p = [] := by
    unfold collectedGenres
    rw [List.append_eq_nil]
    constructor
    · rw [List.flatten_eq_nil_iff]
      intro x hx
      rcases List.mem_map.mp hx with ⟨m, hm, rfl⟩
      exact hw m hm
    · rw [List.filterMap_eq_nil_iff]
      exact hu
  unfold analyzeGenres
  rw [if_pos hc]

theorem analyzeGenres_defaults_witness :
    analyzeGenres ⟨[⟨none⟩, ⟨some []⟩], [⟨none⟩]⟩ =
      ["Action", "Drama", "Comedy", "Thriller", "Sci-Fi"] :=
  analyzeGenres_defaults ⟨[⟨none⟩, ⟨some []⟩], [⟨none⟩]⟩ (by decide) (by decide)

/-- C10: for every payload with a non-empty counted genre set, `analyzeGenres`
returns a duplicate-free permutation of the distinct counted genres, ordered by
non-decreasing final distance; its first element is the relaxation source,
which is the lexicographically smallest counted genre and the unique counted
genre with distance 0. -/
theorem analyzeGenres_sorted_permutation (p : Payload)
    (h : collectedGenres p ≠ []) :
    (analyzeGenres p).Perm (genresList p) ∧
    (analyzeGenres p).Nodup ∧
    (analyzeGenres p).Pairwise (fun a b => finalScore p a ≤ finalScore p b) ∧
    (analyzeGenres p).head? = some (srcOf p) ∧
    (∀ g ∈ genresList p, srcOf p ≤ g) ∧
    (∀ g, g ∈ genresList p ↔ 1 ≤ genreCount p g) ∧
    finalScore p (srcOf p) = 0 ∧
    (∀ g ∈ genresList p, g ≠ srcOf p → 1 ≤ finalScore p g) :=
  ⟨analyzeGenres_perm p h,
   (analyzeGenres_perm p h).nodup_iff.mpr (genresList_nodup p),
   analyzeGenres_pairwise p h,
   analyzeGenres_head p h,
   srcOf_le h,
   fun _ => mem_genresList_iff_counted,
   finalScore_src p,
   fun _ hg hne => finalScore_pos p hg hne⟩

theorem analyzeGenres_sorted_permutation_witness :
    (analyzeGenres ⟨[⟨some ["Action", "Action"]⟩], []⟩).head? =
      some (srcOf ⟨[⟨some ["Action", "Action"]⟩], []⟩) :=
  (analyzeGenres_sorted_permutation ⟨[⟨some ["Action", "Action"]⟩], []⟩
    (by decide)).2.2.2.1

end MoviesRec

namespace SpecModel

/-!
The repository snapshot contains only the declarations of `RecommendationGraph`
(`src/graph.h`) and `RecommendationEngine` (`src/recommendation_engine.h`); the
member function bodies are absent. The operations below are therefore modelled
from the specification text (each doc comment records this), with the entity
and edge shapes taken from the header declarations.
-/

/-- `struct User` of `src/graph.h`: ratings is the map movieId → rating,
kept as an association list with one entry per movie. -/
structure User where
  id : String
  name : String
  preferredGenres : List String
  ratings : List (String × Int)
deriving DecidableEq

/-- `struct Movie` of `src/graph.h`; the reference rating (a C++ double) is
modelled as a rational number. -/
structure Movie where
  id : String
  title : String
  genre : String
  rating : ℚ
  year : Int
deriving DecidableEq

/-- `struct Genre` of `src/graph.h`. -/
structure Genre where
  id : String
  name : String
deriving DecidableEq

/-- The edge type tag of `struct Edge` in `src/graph.h`. -/
inductive EdgeType
  | rated
  | prefers
  | belongsTo
deriving DecidableEq

/-- `struct Edge` of `src/graph.h` (`from`/`to` renamed `src`/`dst`). -/
structure GraphEdge where
  src : String
  dst : String
  weight : Int
  etype : EdgeType
deriving DecidableEq

/-- The state of `class RecommendationGraph` of `src/graph.h`: per-entity maps
keyed by id plus the adjacency list, all as association lists. -/
structure RecommendationGraph where
  users : List (String × User)
  movies : List (String × Movie)
  genres : List (String × Genre)
  adjacencyList : List (String × List GraphEdge)
deriving DecidableEq

/-- The error kinds of spec §7. -/
inductive RecError
  | DuplicateIdError
  | UnknownReferenceError
  | UnknownUserError
  | UnknownMovieError
  | InvalidRangeError
  | InvalidArgumentError
  | InvalidConfigurationError
deriving DecidableEq

/-- Association-list lookup (the `std::unordered_map` access of the model). -/
def alookup {α : Type} : List (String × α) → String → Option α
  | [], _ => none
  | q :: l, k => if q.1 = k then some q.2 else alookup l k

/-- Association-list update-or-insert. -/
def setA {α : Type} : List (String × α) → String → α → List (String × α)
  | [], k, v => [(k, v)]
  | q :: l, k, v => if q.1 = k then (k, v) :: l else q :: setA l k v

lemma alookup_setA_self {α : Type} (l : List (String × α)) (k : String) (v : α) :
    alookup (setA l k v) k = some v := by
  induction l with
  | nil => simp [setA, alookup]
  | cons q l ih =>
    by_cases h : q.1 = k
    · simp [setA, h, alookup]
    · simp [setA, h, alookup, ih]

lemma alookup_setA_other {α : Type} (l : List (String × α)) (k k' : String) (v : α)
    (h : k' ≠ k) : alookup (setA l k v) k' = alookup l k' := by
  induction l with
  | nil =>
    unfold setA alookup
    rw [if_neg (fun hc : k = k' => h hc.symm)]
    rfl
  | cons q l ih =>
    unfold setA
    by_cases hq : q.1 = k
    · rw [if_pos hq]
      have h1 : ¬ k = k' := fun hc => h hc.symm
      have h2 : ¬ q.1 = k' := fun hc => h (hc.symm.trans hq)
      unfold alookup
      rw [if_neg h1, if_neg h2]
    · rw [if_neg hq]
      unfold alookup
      by_cases hq' : q.1 = k'
      · rw [if_pos hq', if_pos hq']
      · rw [if_neg hq', if_neg hq']
        exact ih

lemma alookup_mem {α : Type} {l : List (String × α)} {k : String} {v : α}
    (h : alookup l k = some v) : (k, v) ∈ l := by
  induction l with
  | nil => cases h
  | cons q l ih =>
    unfold alookup at h
    by_cases hq : q.1 = k
    · rw [if_pos hq] at h
      cases h
      have hqe : (k, q.2) = q := by
        rw [← hq]
      rw [hqe]
      exact List.mem_cons_self _ _
    · rw [if_neg hq] at h
      exact List.mem_cons_of_mem _ (ih h)

lemma alookup_isSome_iff {α : Type} {l : List (String × α)} {k : String} :
    (alookup l k).isSome ↔ k ∈ l.map Prod.fst := by
  induction l with
  | nil => simp [alookup]
  | cons q l ih =>
    unfold alookup
    by_cases hq : q.1 = k
    · simp [hq]
    · rw [if_neg hq, ih]
      simp [List.mem_cons, Ne.symm hq]

/-- Descending lexicographic ranking order: primary key `f` descending, ties
broken by secondary key `k` descending. -/
def rank2 {α β γ : Type} [LinearOrder β] [LinearOrder γ] (f : α → β) (k : α → γ)
    (a b : α) : Prop :=
  f b < f a ∨ (f a = f b ∧ k b ≤ k a)

instance {α β γ : Type} [LinearOrder β] [LinearOrder γ] (f : α → β) (k : α → γ) :
    DecidableRel (rank2 f k) :=
  fun a b => inferInstanceAs (Decidable (f b < f a ∨ (f a = f b ∧ k b ≤ k a)))

instance {α β γ : Type} [LinearOrder β] [LinearOrder γ] (f : α → β) (k : α → γ) :
    IsTotal α (rank2 f k) := by
  refine ⟨fun a b => ?_⟩
  rcases lt_trichotomy (f a) (f b) with h | h | h
  · exact Or.inr (Or.inl h)
  · rcases le_total (k b) (k a) with h2 | h2
    · exact Or.inl (Or.inr ⟨h, h2⟩)
    · exact Or.inr (Or.inr ⟨h.symm, h2⟩)
  · exact Or.inl (Or.inl h)

instance {α β γ : Type} [LinearOrder β] [LinearOrder γ] (f : α → β) (k : α → γ) :
    IsTrans α (rank2 f k) := by
  refine ⟨fun a b c hab hbc => ?_⟩
  rcases hab with h1 | ⟨h1, h1'⟩
  · rcases hbc with h2 | ⟨h2, h2'⟩
    · exact Or.inl (lt_trans h2 h1)
    · exact Or.inl (h2 ▸ h1)
  · rcases hbc with h2 | ⟨h2, h2'⟩
    · exact Or.inl (lt_of_lt_of_le h2 (le_of_eq h1.symm))
    · exact Or.inr ⟨h1.trans h2, le_trans h2' h1'⟩

lemma rank2_le {α β γ : Type} [LinearOrder β] [LinearOrder γ] {f : α → β} {k : α → γ}
    {a b : α} (h : rank2 f k a b) : f b ≤ f a := by
  rcases h with h | ⟨h, _⟩
  · exact le_of_lt h
  · exact le_of_eq h.symm

/-- Well-formedness of a graph value: map keys are duplicate-free and agree
with the stored entity ids, and each user's rating list has one entry per
movie. These hold for every graph built through the add* operations. -/
def WFGraph (g : RecommendationGraph) : Prop :=
  (g.movies.map Prod.fst).Nodup ∧ (∀ q ∈ g.movies, q.2.id = q.1) ∧
  (g.users.map Prod.fst).Nodup ∧ (∀ q ∈ g.users, q.2.id = q.1) ∧
  (∀ q ∈ g.users, (q.2.ratings.map Prod.fst).Nodup)

lemma alookup_movie_id {g : RecommendationGraph} (hwf : WFGraph g) {k : String}
    {mv : Movie} (h : alookup g.movies k = some mv) : mv.id = k :=
  hwf.2.1 (k, mv) (alookup_mem h)

/-- Whether the user already rated the movie. -/
def userRated (u : User) (movieId : String) : Bool :=
  (alookup u.ratings movieId).isSome

/-- Modelled from the spec: `getCommonMovies` (body absent from the snapshot)
returns the movies rated by both users. -/
def getCommonMovies (u1 u2 : User) : List String :=
  (u1.ratings.map Prod.fst).filter (fun m => (alookup u2.ratings m).isSome)

def ratingOf (u : User) (m : String) : Int :=
  (alookup u.ratings m).getD 0

def clamp01 (q : ℚ) : ℚ := max 0 (min 1 q)

/-- Modelled from the spec: `calculateUserSimilarity` (body absent from the
snapshot) computes, over the movies both users rated, one minus the mean
absolute rating difference over the rating scale span 4, bounded to [0, 1];
0 when the intersection is empty. -/
def calculateUserSimilarity (u1 u2 : User) : ℚ :=
  if getCommonMovies u1 u2 = [] then 0
  else clamp01 (1 -
    (((getCommonMovies u1 u2).map
        (fun m => |(ratingOf u1 m : ℚ) - (ratingOf u2 m : ℚ)|)).sum
      / (4 * (getCommonMovies u1 u2).length)))

/-- Replace the weight of the first matching `rated` edge, or append a new
edge when none matches. -/
def upsertRated : List GraphEdge → String → String → Int → List GraphEdge
  | [], u, m, r => [⟨u, m, r, EdgeType.rated⟩]
  | e :: es, u, m, r =>
    if e.etype = EdgeType.rated ∧ e.dst = m then ⟨e.src, e.dst, r, e.etype⟩ :: es
    else e :: upsertRated es u m r

def ratedCountTo (es : List GraphEdge) (m : String) : Nat :=
  es.countP (fun e => decide (e.etype = EdgeType.rated ∧ e.dst = m))

/-- Number of `rated` edges from user `u` to movie `m`. -/
def ratedEdgeCount (g : RecommendationGraph) (u m : String) : Nat :=
  ratedCountTo ((alookup g.adjacencyList u).getD []) m

/-- Update the stored rating entry of one user in the users map. -/
def setUserRating (users : List (String × User)) (userId movieId : String) (r : Int) :
    List (String × User) :=
  users.map (fun q =>
    if q.1 = userId then (q.1, { q.2 with ratings := setA q.2.ratings movieId r }) else q)

/-- Modelled from the spec: `addRating(userId, movieId, rating)` validates that
both ids exist (`UnknownReferenceError` otherwise), validates the rating scale
[1,5] (`InvalidRangeError` otherwise), then updates `User.ratings[movieId]`
and upserts the `rated` edge weight; on failure the graph is returned
untouched. -/
def addRating (g : RecommendationGraph) (userId movieId : String) (rating : Int) :
    RecommendationGraph × Option RecError :=
  if (alookup g.users userId).isNone ∨ (alookup g.movies movieId).isNone then
    (g, some RecError.UnknownReferenceError)
  else if rating < 1 ∨ 5 < rating then (g, some RecError.InvalidRangeError)
  else
    ({ g with
        users := setUserRating g.users userId movieId rating,
        adjacencyList := setA g.adjacencyList userId
          (upsertRated ((alookup g.adjacencyList userId).getD []) userId movieId rating) },
      none)

/-- The internal relevance floor of collaborative filtering, an implementation
choice left open by the spec (§9) and fixed here. -/
def similarityFloor : ℚ := 1 / 2

def otherUsers (g : RecommendationGraph) (uid : String) : List User :=
  (g.users.filter (fun q => decide (q.1 ≠ uid))).map Prod.snd

def similarUsersTo (g : RecommendationGraph) (u : User) : List User :=
  (otherUsers g u.id).filter
    (fun v => decide (similarityFloor ≤ calculateUserSimilarity u v))

/-- Aggregate collaborative score of a candidate movie: sum over similar users
who rated it above the midpoint 3 of similarity times their rating. -/
def collabScore (g : RecommendationGraph) (u : User) (m : String) : ℚ :=
  ((similarUsersTo g u).map (fun v =>
    if 3 < ratingOf v m then calculateUserSimilarity u v * (ratingOf v m : ℚ) else 0)).sum

def collabCandidateIds (g : RecommendationGraph) (u : User) : List String :=
  (g.movies.map Prod.fst).filter
    (fun m => !(userRated u m) && (similarUsersTo g u).any (fun v => decide (3 < ratingOf v m)))

/-- Modelled from the spec: collaborative filtering ranks candidate movies
(rated above the midpoint by a sufficiently similar other user and unrated by
the target) by aggregate score descending, ties by movie id ascending, capped
at `maxRecommendations`. -/
def getCollaborativeFilteringRecommendations (g : RecommendationGraph) (uid : String)
    (maxRecommendations : Nat) : List Movie :=
  match alookup g.users uid with
  | none => []
  | some u =>
    ((List.insertionSort (rank2 Prod.snd (fun q : String × ℚ => OrderDual.toDual q.1))
        ((collabCandidateIds g u).map (fun m => (m, collabScore g u m)))).take
      maxRecommendations).filterMap (fun q => alookup g.movies q.1)

/-- Modelled from the spec: `getTopRatedMovies(count)` returns all movie ids
sorted by reference rating descending, ties by year descending, capped. -/
def getTopRatedMovies (g : RecommendationGraph) (count : Nat) : List String :=
  ((List.insertionSort (rank2 Movie.rating Movie.year) (g.movies.map Prod.snd)).map
    Movie.id).take count

/-- Modelled from the spec: content-based recommendation ranks unrated movies
whose genre is among the user's preferred genres by reference rating
descending, then year descending, capped; with no stated preferences it falls
back to the globally top-rated movies via `getTopRatedMovies`. -/
def getContentBasedRecommendations (g : RecommendationGraph) (uid : String)
    (maxRecommendations : Nat) : List Movie :=
  match alookup g.users uid with
  | none => []
  | some u =>
    if u.preferredGenres = [] then
      (getTopRatedMovies g maxRecommendations).filterMap (alookup g.movies)
    else
      (List.insertionSort (rank2 Movie.rating Movie.year)
        ((g.movies.map Prod.snd).filter
          (fun mv => decide (mv.genre ∈ u.preferredGenres) && !(userRated u mv.id)))).take
        maxRecommendations

/-- The blended score of the hybrid strategy. -/
def hybridScore (g : RecommendationGraph) (u : User) (cw cbw : ℚ) (mv : Movie) : ℚ :=
  cw * collabScore g u mv.id + cbw * mv.rating

/-- Modelled from the spec: the hybrid strategy merges the collaborative and
content-based candidate lists, deduplicates by movie, ranks by the weighted
blend of the two scores (ties by id ascending) and caps the result. -/
def getHybridRecommendations (g : RecommendationGraph) (cw cbw : ℚ) (uid : String)
    (maxRecommendations : Nat) : List Movie :=
  match alookup g.users uid with
  | none => []
  | some u =>
    (List.insertionSort (rank2 (hybridScore g u cw cbw) (fun mv => OrderDual.toDual mv.id))
      ((getCollaborativeFilteringRecommendations g uid maxRecommendations ++
        getContentBasedRecommendations g uid maxRecommendations).dedup)).take
      maxRecommendations

def neighborIds (g : RecommendationGraph) (n : String) : List String :=
  ((alookup g.adjacencyList n).getD []).map GraphEdge.dst

def bfsVisit (acc : List String × List String) (m : String) :
    List String × List String :=
  if m ∈ acc.1 then acc else (acc.1 ++ [m], acc.2 ++ [m])

def bfsExpand (g : RecommendationGraph) (acc frontier : List String) :
    List String × List String :=
  frontier.foldl (fun st n => (neighborIds g n).foldl bfsVisit st) (acc, [])

def bfsLoop (g : RecommendationGraph) : Nat → List String → List String → List String
  | 0, acc, _ => acc
  | d + 1, acc, frontier =>
    bfsLoop g d (bfsExpand g acc frontier).1 (bfsExpand g acc frontier).2

/-- Modelled from the spec: breadth-first traversal from `start`, expanding
across all edge types level by level up to `maxDepth` hops, with a visited set
preventing revisits; the start node is included in the discovery order. -/
def BFS (g : RecommendationGraph) (start : String) (maxDepth : Nat) : List String :=
  bfsLoop g maxDepth [start] [start]

/-- All node ids of the graph, across the three entity namespaces. -/
def allNodeIds (g : RecommendationGraph) : List String :=
  g.users.map Prod.fst ++ g.movies.map Prod.fst ++ g.genres.map Prod.fst

/-- `class RecommendationEngine` of `src/recommendation_engine.h`. -/
structure RecommendationEngine where
  graph : RecommendationGraph
  collaborativeWeight : ℚ
  contentBasedWeight : ℚ

/-- Modelled from the spec: engine construction with the default balanced
blend weights. -/
def mkEngine (g : RecommendationGraph) : RecommendationEngine :=
  ⟨g, 1 / 2, 1 / 2⟩

/-- Modelled from the spec: `getRecommendations(userId, method, maxResults)`
rejects a method outside {collaborative, content, hybrid} with
`InvalidArgumentError`, rejects an unknown user with `UnknownUserError`, and
otherwise dispatches to the matching graph algorithm. -/
def getRecommendations (e : RecommendationEngine) (userId method : String)
    (maxResults : Nat) : Except RecError (List Movie) :=
  if method ≠ "collaborative" ∧ method ≠ "content" ∧ method ≠ "hybrid" then
    Except.error RecError.InvalidArgumentError
  else if (alookup e.graph.users userId).isNone then
    Except.error RecError.UnknownUserError
  else if method = "collaborative" then
    Except.ok (getCollaborativeFilteringRecommendations e.graph userId maxResults)
  else if method = "content" then
    Except.ok (getContentBasedRecommendations e.graph userId maxResults)
  else
    Except.ok (getHybridRecommendations e.graph e.collaborativeWeight e.contentBasedWeight
      userId maxResults)

/-- The C++ call with the `method` argument left to its declared default
`"hybrid"` (and `maxResults` to its default 10). -/
def getRecommendationsDefault (e : RecommendationEngine) (userId : String) :
    Except RecError (List Movie) :=
  getRecommendations e userId "hybrid" 10

/-! Sample data: the scenario of spec §8, plus a third user with ratings but
no stated genre preferences. -/

def sampleU1 : User := ⟨"u1", "U1", ["g1"], [("m2", 5)]⟩

def sampleU2 : User := ⟨"u2", "U2", ["g1"], [("m1", 5), ("m2", 4)]⟩

def sampleU3 : User := ⟨"u3", "U3", [], [("m1", 5)]⟩

def sampleM1 : Movie := ⟨"m1", "M1", "g1", 5, 2020⟩

def sampleM2 : Movie := ⟨"m2", "M2", "g2", 4, 2019⟩

def sampleGraph : RecommendationGraph :=
  { users := [("u1", sampleU1), ("u2", sampleU2), ("u3", sampleU3)],
    movies := [("m1", sampleM1), ("m2", sampleM2)],
    genres := [("g1", ⟨"g1", "Action"⟩), ("g2", ⟨"g2", "Drama"⟩)],
    adjacencyList :=
      [("u1", [⟨"u1", "m2", 5, EdgeType.rated⟩, ⟨"u1", "g1", 1, EdgeType.prefers⟩]),
       ("u2", [⟨"u2", "m1", 5, EdgeType.rated⟩, ⟨"u2", "m2", 4, EdgeType.rated⟩,
               ⟨"u2", "g1", 1, EdgeType.prefers⟩]),
       ("u3", [⟨"u3", "m1", 5, EdgeType.rated⟩]),
       ("m1", [⟨"m1", "g1", 1, EdgeType.belongsTo⟩]),
       ("m2", [⟨"m2", "g2", 1, EdgeType.belongsTo⟩])] }

lemma sampleGraph_wf : WFGraph sampleGraph := by
  refine ⟨?_, ?_, ?_, ?_, ?_⟩ <;> decide

lemma mem_getCommonMovies {u1 u2 : User} {m : String} :
    m ∈ getCommonMovies u1 u2 ↔
      (alookup u1.ratings m).isSome ∧ (alookup u2.ratings m).isSome := by
  unfold getCommonMovies
  rw [List.mem_filter, ← alookup_isSome_iff]

lemma getCommonMovies_nodup {u1 u2 : User} (h : (u1.ratings.map Prod.fst).Nodup) :
    (getCommonMovies u1 u2).Nodup :=
  h.filter _

lemma getCommonMovies_perm {u1 u2 : User} (h1 : (u1.ratings.map Prod.fst).Nodup)
    (h2 : (u2.ratings.map Prod.fst).Nodup) :
    (getCommonMovies u1 u2).Perm (getCommonMovies u2 u1) := by
  rw [List.perm_ext_iff_of_nodup (getCommonMovies_nodup h1) (getCommonMovies_nodup h2)]
  intro m
  rw [mem_getCommonMovies, mem_getCommonMovies]
  exact And.comm

lemma similarity_sum_comm {u1 u2 : User} (h1 : (u1.ratings.map Prod.fst).Nodup)
    (h2 : (u2.ratings.map Prod.fst).Nodup) :
    ((getCommonMovies u1 u2).map
      (fun m => |(ratingOf u1 m : ℚ) - (ratingOf u2 m : ℚ)|)).sum =
    ((getCommonMovies u2 u1).map
      (fun m => |(ratingOf u2 m : ℚ) - (ratingOf u1 m : ℚ)|)).sum := by
  have hp := (getCommonMovies_perm h1 h2).map
    (fun m => |(ratingOf u1 m : ℚ) - (ratingOf u2 m : ℚ)|)
  rw [hp.sum_eq]
  congr 1
  apply List.map_congr_left
  intro m _
  rw [abs_sub_comm]

lemma clamp01_bounds (q : ℚ) : 0 ≤ clamp01 q ∧ clamp01 q ≤ 1 :=
  ⟨le_max_left 0 _, max_le zero_le_one (min_le_left 1 _)⟩

/-- C4: user similarity is symmetric, lies in [0, 1], and is exactly 0 when
the two users share no rated movie. -/
theorem calculateUserSimilarity_props (g : RecommendationGraph) (hwf : WFGraph g)
    (ida idb : String) (a b : User)
    (ha : alookup g.users ida = some a) (hb : alookup g.users idb = some b) :
    calculateUserSimilarity a b = calculateUserSimilarity b a ∧
    0 ≤ calculateUserSimilarity a b ∧
    calculateUserSimilarity a b ≤ 1 ∧
    (getCommonMovies a b = [] → calculateUserSimilarity a b = 0) := by
  have hna : (a.ratings.map Prod.fst).Nodup := hwf.2.2.2.2 (ida, a) (alookup_mem ha)
  have hnb : (b.ratings.map Prod.fst).Nodup := hwf.2.2.2.2 (idb, b) (alookup_mem hb)
  refine ⟨?_, ?_, ?_, ?_⟩
  · unfold calculateUserSimilarity
    by_cases hc : getCommonMovies a b = []
    · have hc' : getCommonMovies b a = [] := by
        have hp := getCommonMovies_perm hna hnb
        rw [hc] at hp
        exact (hp.symm.eq_nil)
      rw [if_pos hc, if_pos hc']
    · have hc' : getCommonMovies b a ≠ [] := by
        intro hc2
        have hp := getCommonMovies_perm hna hnb
        rw [hc2] at hp
        exact hc hp.eq_nil
      rw [if_neg hc, if_neg hc', similarity_sum_comm hna hnb,
        (getCommonMovies_perm hna hnb).length_eq]
  · unfold calculateUserSimilarity
    by_cases hc : getCommonMovies a b = []
    · rw [if_pos hc]
    · rw [if_neg hc]
      exact (clamp01_bounds _).1
  · unfold calculateUserSimilarity
    by_cases hc : getCommonMovies a b = []
    · rw [if_pos hc]
      exact zero_le_one
    · rw [if_neg hc]
      exact (clamp01_bounds _).2
  · intro hc
    unfold calculateUserSimilarity
    rw [if_pos hc]

theorem calculateUserSimilarity_props_witness :
    calculateUserSimilarity sampleU1 sampleU2 = calculateUserSimilarity sampleU2 sampleU1 :=
  (calculateUserSimilarity_props sampleGraph sampleGraph_wf "u1" "u2" sampleU1 sampleU2
    (by decide) (by decide)).1

lemma ratedCountTo_upsert (es : List GraphEdge) (u m : String) (r : Int) :
    ratedCountTo (upsertRated es u m r) m =
      if ratedCountTo es m = 0 then 1 else ratedCountTo es m := by
  induction es with
  | nil =>
    unfold upsertRated ratedCountTo
    simp [List.countP_cons]
  | cons e es ih =>
    by_cases hp : e.etype = EdgeType.rated ∧ e.dst = m
    · unfold upsertRated
      rw [if_pos hp]
      have h1 : (decide (e.etype = EdgeType.rated ∧ e.dst = m)) = true := by
        simp [hp.1, hp.2]
      unfold ratedCountTo
      rw [List.countP_cons, List.countP_cons]
      simp only [h1, if_true]
      generalize List.countP (fun e => decide (e.etype = EdgeType.rated ∧ e.dst = m)) es = X
      have hne : ¬ (X + 1 = 0) := by omega
      rw [if_neg hne]
    · unfold upsertRated
      rw [if_neg hp]
      have h1 : (decide (e.etype = EdgeType.rated ∧ e.dst = m)) = false := by
        simpa using hp
      unfold ratedCountTo at ih ⊢
      rw [List.countP_cons, List.countP_cons]
      simp only [h1, Bool.false_eq_true, if_false, Nat.add_zero]
      exact ih

lemma upsertRated_weights {es : List GraphEdge} {u m : String} {r : Int}
    (hle : ratedCountTo es m ≤ 1) :
    ∀ e ∈ upsertRated es u m r, e.etype = EdgeType.rated → e.dst = m → e.weight = r := by
  induction es with
  | nil =>
    intro e he _ _
    unfold upsertRated at he
    rcases List.mem_singleton.mp he with rfl
    rfl
  | cons f es ih =>
    intro e he het hdst
    by_cases hp : f.etype = EdgeType.rated ∧ f.dst = m
    · unfold upsertRated at he
      rw [if_pos hp] at he
      rcases List.mem_cons.mp he with rfl | hmem
      · rfl
      · exfalso
        unfold ratedCountTo at hle
        rw [List.countP_cons] at hle
        have h1 : (decide (f.etype = EdgeType.rated ∧ f.dst = m)) = true := by
          simp [hp.1, hp.2]
        simp only [h1, if_true] at hle
        have h0 : es.countP (fun e => decide (e.etype = EdgeType.rated ∧ e.dst = m)) = 0 := by
          omega
        have := List.countP_eq_zero.mp h0 e hmem
        simp [het, hdst] at this
    · unfold upsertRated at he
      rw [if_neg hp] at he
      rcases List.mem_cons.mp he with rfl | hmem
      · exact absurd ⟨het, hdst⟩ hp
      · have hle' : ratedCountTo es m ≤ 1 := by
          unfold ratedCountTo at hle ⊢
          rw [List.countP_cons] at hle
          omega
        exact ih hle' e hmem het hdst

lemma alookup_setUserRating {users : List (String × User)} {userId : String} {u : User}
    (h : alookup users userId = some u) (movieId : String) (r : Int) :
    alookup (setUserRating users userId movieId r) userId =
      some { u with ratings := setA u.ratings movieId r } := by
  induction users with
  | nil => cases h
  | cons q l ih =>
    unfold alookup at h
    unfold setUserRating
    rw [List.map_cons]
    by_cases hq : q.1 = userId
    · rw [if_pos hq] at h ⊢
      cases h
      unfold alookup
      rw [if_pos hq]
    · rw [if_neg hq] at h ⊢
      unfold alookup
      rw [if_neg hq]
      exact ih h

/-- C5: `addRating` fails with `UnknownReferenceError` when either id is
unregistered and with `InvalidRangeError` when the rating is outside [1, 5];
every failure leaves the graph (users, movies, edges) exactly as it was; on
success the user's rating entry is set and the `rated` edge weight is upserted
without creating a duplicate edge. -/
theorem addRating_props (g : RecommendationGraph) (userId movieId : String) (rating : Int) :
    ((alookup g.users userId = none ∨ alookup g.movies movieId = none) →
      addRating g userId movieId rating = (g, some RecError.UnknownReferenceError)) ∧
    (∀ u, alookup g.users userId = some u → (alookup g.movies movieId).isSome →
      (rating < 1 ∨ 5 < rating) →
      addRating g userId movieId rating = (g, some RecError.InvalidRangeError)) ∧
    (∀ err, (addRating g userId movieId rating).2 = some err →
      (addRating g userId movieId rating).1 = g) ∧
    (∀ u, alookup g.users userId = some u → (alookup g.movies movieId).isSome →
      1 ≤ rating → rating ≤ 5 →
      (addRating g userId movieId rating).2 = none ∧
      (∃ u', alookup (addRating g userId movieId rating).1.users userId = some u' ∧
        alookup u'.ratings movieId = some rating) ∧
      (ratedEdgeCount g userId movieId ≤ 1 →
        ratedEdgeCount (addRating g userId movieId rating).1 userId movieId = 1 ∧
        ∀ e ∈ (alookup (addRating g userId movieId rating).1.adjacencyList userId).getD [],
          e.etype = EdgeType.rated → e.dst = movieId → e.weight = rating)) := by
  refine ⟨?_, ?_, ?_, ?_⟩
  · intro h
    unfold addRating
    rw [if_pos]
    rcases h with h | h
    · exact Or.inl (by rw [h]; rfl)
    · exact Or.inr (by rw [h]; rfl)
  · intro u hu hm hr
    unfold addRating
    rw [if_neg (by rw [hu]; simpa using Option.ne_none_iff_isSome.mpr hm), if_pos hr]
  · intro err herr
    unfold addRating at herr ⊢
    by_cases hex : (alookup g.users userId).isNone ∨ (alookup g.movies movieId).isNone
    · rw [if_pos hex]
    · rw [if_neg hex] at herr ⊢
      by_cases hr : rating < 1 ∨ 5 < rating
      · rw [if_pos hr]
      · rw [if_neg hr] at herr
        cases herr
  · intro u hu hm h1 h5
    have hr : ¬ (rating < 1 ∨ 5 < rating) := by omega
    have hex : ¬ ((alookup g.users userId).isNone ∨ (alookup g.movies movieId).isNone) := by
      rw [hu]
      rcases Option.isSome_iff_exists.mp hm with ⟨mv, hmv⟩
      rw [hmv]
      simp
    unfold addRating
    rw [if_neg hex, if_neg hr]
    refine ⟨rfl, ⟨{ u with ratings := setA u.ratings movieId rating }, ?_, ?_⟩, ?_⟩
    · show alookup (setUserRating g.users userId movieId rating) userId = _
      exact alookup_setUserRating hu movieId rating
    · exact alookup_setA_self _ _ _
    · intro hcount
      unfold ratedEdgeCount
      rw [show (alookup (setA g.adjacencyList userId
          (upsertRated ((alookup g.adjacencyList userId).getD []) userId movieId rating))
          userId) = some (upsertRated ((alookup g.adjacencyList userId).getD [])
            userId movieId rating) from alookup_setA_self _ _ _]
      constructor
      · rw [show ((some (upsertRated ((alookup g.adjacencyList userId).getD [])
            userId movieId rating)).getD []) = upsertRated
            ((alookup g.adjacencyList userId).getD []) userId movieId rating from rfl]
        rw [ratedCountTo_upsert]
        unfold ratedEdgeCount at hcount
        by_cases h0 : ratedCountTo ((alookup g.adjacencyList userId).getD []) movieId = 0
        · rw [if_pos h0]
        · rw [if_neg h0]
          omega
      · intro e he het hdst
        exact upsertRated_weights hcount e he het hdst

theorem addRating_props_witness :
    (addRating sampleGraph "u1" "m1" 3).2 = none :=
  ((addRating_props sampleGraph "u1" "m1" 3).2.2.2 sampleU1 (by decide) (by decide)
    (by decide) (by decide)).1

lemma bfsVisit_nodup {acc : List String × List String} {m : String}
    (h : acc.1.Nodup) : (bfsVisit acc m).1.Nodup := by
  unfold bfsVisit
  by_cases hm : m ∈ acc.1
  · rw [if_pos hm]
    exact h
  · rw [if_neg hm]
    show (acc.1 ++ [m]).Nodup
    rw [List.nodup_append]
    exact ⟨h, List.nodup_singleton m, by simpa using hm⟩

lemma foldl_bfsVisit_nodup (ms : List String) :
    ∀ st : List String × List String, st.1.Nodup → (ms.foldl bfsVisit st).1.Nodup := by
  induction ms with
  | nil => exact fun st h => h
  | cons m ms ih => exact fun st h => ih _ (bfsVisit_nodup h)

lemma bfsExpand_nodup (g : RecommendationGraph) (frontier : List String) :
    ∀ acc : List String, acc.Nodup → (bfsExpand g acc frontier).1.Nodup := by
  unfold bfsExpand
  induction frontier with
  | nil => exact fun acc h => h
  | cons n ns ih =>
    intro acc h
    rw [List.foldl_cons]
    have h1 : ((neighborIds g n).foldl bfsVisit (acc, [])).1.Nodup :=
      foldl_bfsVisit_nodup _ (acc, []) h
    -- remaining fold over ns starting from an arbitrary pair state
    have hgen : ∀ (ms : List String) (st : List String × List String), st.1.Nodup →
        (ms.foldl (fun st n => (neighborIds g n).foldl bfsVisit st) st).1.Nodup := by
      intro ms
      induction ms with
      | nil => exact fun st hst => hst
      | cons x xs ihx =>
        intro st hst
        rw [List.foldl_cons]
        exact ihx _ (foldl_bfsVisit_nodup _ st hst)
    exact hgen ns _ h1

lemma bfsLoop_nodup (g : RecommendationGraph) :
    ∀ (d : Nat) (acc frontier : List String), acc.Nodup →
      (bfsLoop g d acc frontier).Nodup := by
  intro d
  induction d with
  | zero => exact fun acc frontier h => h
  | succ n ih =>
    intro acc frontier h
    exact ih _ _ (bfsExpand_nodup g frontier acc h)

/-- C8: `BFS(start, 0)` returns at most the start node itself, with no
expansion to neighbours, and no BFS result ever repeats a node id. -/
theorem BFS_props (g : RecommendationGraph) (start : String)
    (_hstart : start ∈ allNodeIds g) :
    BFS g start 0 = [start] ∧ ∀ maxDepth, (BFS g start maxDepth).Nodup := by
  constructor
  · rfl
  · intro maxDepth
    exact bfsLoop_nodup g maxDepth [start] [start] (List.nodup_singleton start)

theorem BFS_props_witness : BFS sampleGraph "u1" 0 = ["u1"] :=
  (BFS_props sampleGraph "u1" (by decide)).1

/-- C7: `getRecommendations` defaults the method to "hybrid" when it is
omitted, rejects unknown method names with `InvalidArgumentError`, rejects an
absent user with `UnknownUserError`, and otherwise dispatches to the matching
graph algorithm. -/
theorem getRecommendations_props (e : RecommendationEngine) (userId method : String)
    (maxResults : Nat) :
    (getRecommendationsDefault e userId = getRecommendations e userId "hybrid" 10) ∧
    (method ≠ "collaborative" → method ≠ "content" → method ≠ "hybrid" →
      getRecommendations e userId method maxResults =
        Except.error RecError.InvalidArgumentError) ∧
    ((method = "collaborative" ∨ method = "content" ∨ method = "hybrid") →
      alookup e.graph.users userId = none →
      getRecommendations e userId method maxResults =
        Except.error RecError.UnknownUserError) ∧
    (alookup e.graph.users userId ≠ none →
      getRecommendations e userId "collaborative" maxResults =
        Except.ok (getCollaborativeFilteringRecommendations e.graph userId maxResults) ∧
      getRecommendations e userId "content" maxResults =
        Except.ok (getContentBasedRecommendations e.graph userId maxResults) ∧
      getRecommendations e userId "hybrid" maxResults =
        Except.ok (getHybridRecommendations e.graph e.collaborativeWeight
          e.contentBasedWeight userId maxResults)) := by
  refine ⟨rfl, ?_, ?_, ?_⟩
  · intro h1 h2 h3
    unfold getRecommendations
    rw [if_pos ⟨h1, h2, h3⟩]
  · intro hm hu
    unfold getRecommendations
    have hval : ¬ (method ≠ "collaborative" ∧ method ≠ "content" ∧ method ≠ "hybrid") := by
      rcases hm with h | h | h <;> simp [h]
    rw [if_neg hval, if_pos (by rw [hu]; rfl)]
  · intro hu
    have hu' : (alookup e.graph.users userId).isNone = false := by
      cases hl : alookup e.graph.users userId with
      | none => exact absurd hl hu
      | some u => rfl
    refine ⟨?_, ?_, ?_⟩
    · unfold getRecommendations
      rw [if_neg (by simp), if_neg (by rw [hu']; simp), if_pos rfl]
    · unfold getRecommendations
      rw [if_neg (by simp), if_neg (by rw [hu']; simp), if_neg (by simp), if_pos rfl]
    · unfold getRecommendations
      rw [if_neg (by simp), if_neg (by rw [hu']; simp), if_neg (by simp), if_neg (by simp)]

theorem getRecommendations_props_witness :
    getRecommendations (mkEngine sampleGraph) "u1" "bogus" 10 =
      Except.error RecError.InvalidArgumentError :=
  (getRecommendations_props (mkEngine sampleGraph) "u1" "bogus" 10).2.1
    (by decide) (by decide) (by decide)

lemma getCollab_some {g : RecommendationGraph} {uid : String} {u : User}
    (hu : alookup g.users uid = some u) (maxR : Nat) :
    getCollaborativeFilteringRecommendations g uid maxR =
      ((List.insertionSort (rank2 Prod.snd (fun q : String × ℚ => OrderDual.toDual q.1))
        ((collabCandidateIds g u).map (fun m => (m, collabScore g u m)))).take
        maxR).filterMap (fun q => alookup g.movies q.1) := by
  unfold getCollaborativeFilteringRecommendations
  rw [hu]

lemma getContentBased_some {g : RecommendationGraph} {uid : String} {u : User}
    (hu : alookup g.users uid = some u) (maxR : Nat) :
    getContentBasedRecommendations g uid maxR =
      if u.preferredGenres = [] then
        (getTopRatedMovies g maxR).filterMap (alookup g.movies)
      else
        (List.insertionSort (rank2 Movie.rating Movie.year)
          ((g.movies.map Prod.snd).filter
            (fun mv => decide (mv.genre ∈ u.preferredGenres) && !(userRated u mv.id)))).take
          maxR := by
  unfold getContentBasedRecommendations
  rw [hu]

lemma getHybrid_some {g : RecommendationGraph} {cw cbw : ℚ} {uid : String} {u : User}
    (hu : alookup g.users uid = some u) (maxR : Nat) :
    getHybridRecommendations g cw cbw uid maxR =
      (List.insertionSort (rank2 (hybridScore g u cw cbw) (fun mv => OrderDual.toDual mv.id))
        ((getCollaborativeFilteringRecommendations g uid maxR ++
          getContentBasedRecommendations g uid maxR).dedup)).take maxR := by
  unfold getHybridRecommendations
  rw [hu]

lemma alookup_of_mem_values {l : List (String × Movie)} (hnd : (l.map Prod.fst).Nodup)
    (hid : ∀ q ∈ l, q.2.id = q.1) {mv : Movie} (h : mv ∈ l.map Prod.snd) :
    alookup l mv.id = some mv := by
  induction l with
  | nil => simp at h
  | cons q l ih =>
    rw [List.map_cons] at h
    have hnd2 : (q.1 :: l.map Prod.fst).Nodup := by
      rw [← List.map_cons]
      exact hnd
    have hnd' := List.nodup_cons.mp hnd2
    rcases List.mem_cons.mp h with h1 | h1
    · subst h1
      unfold alookup
      rw [if_pos (hid q (List.mem_cons_self _ _)).symm]
    · have hkey : mv.id ∈ l.map Prod.fst := by
        rcases List.mem_map.mp h1 with ⟨q', hq', hq2⟩
        subst hq2
        rw [hid q' (List.mem_cons_of_mem _ hq')]
        exact List.mem_map.mpr ⟨q', hq', rfl⟩
      have hne : ¬ q.1 = mv.id := fun hc => hnd'.1 (hc ▸ hkey)
      unfold alookup
      rw [if_neg hne]
      exact ih hnd'.2 (fun r hr => hid r (List.mem_cons_of_mem _ hr)) h1

lemma filterMap_id_of {α : Type} {l : List α} {f : α → Option α}
    (h : ∀ a ∈ l, f a = some a) : l.filterMap f = l := by
  induction l with
  | nil => rfl
  | cons a l ih =>
    rw [List.filterMap_cons_some (h a (List.mem_cons_self _ _)),
      ih (fun b hb => h b (List.mem_cons_of_mem _ hb))]

lemma topRated_filterMap (g : RecommendationGraph) (hwf : WFGraph g) (c : Nat) :
    (getTopRatedMovies g c).filterMap (alookup g.movies) =
      (List.insertionSort (rank2 Movie.rating Movie.year) (g.movies.map Prod.snd)).take c := by
  unfold getTopRatedMovies
  rw [← List.map_take, List.filterMap_map]
  apply filterMap_id_of
  intro mv hmv
  have h1 : mv ∈ List.insertionSort (rank2 Movie.rating Movie.year) (g.movies.map Prod.snd) :=
    List.take_subset _ _ hmv
  have h2 : mv ∈ g.movies.map Prod.snd := (List.mem_insertionSort _).mp h1
  exact alookup_of_mem_values hwf.1 hwf.2.1 h2

/-- C6: for a user with ratings but no stated genre preferences, the
content-based recommendation delegates to `getTopRatedMovies` (mapping the ids
back to Movie records), whose list is the movies sorted by reference rating
descending with ties broken by year descending, capped at the requested
count. -/
theorem contentBased_fallback (g : RecommendationGraph) (hwf : WFGraph g)
    (uid : String) (u : User) (hu : alookup g.users uid = some u)
    (_hr : u.ratings ≠ []) (hp : u.preferredGenres = []) (maxRecommendations : Nat) :
    getContentBasedRecommendations g uid maxRecommendations =
      (getTopRatedMovies g maxRecommendations).filterMap (alookup g.movies) ∧
    (getContentBasedRecommendations g uid maxRecommendations).length ≤ maxRecommendations ∧
    (getContentBasedRecommendations g uid maxRecommendations).Pairwise
      (rank2 Movie.rating Movie.year) := by
  have heq : getContentBasedRecommendations g uid maxRecommendations =
      (getTopRatedMovies g maxRecommendations).filterMap (alookup g.movies) := by
    rw [getContentBased_some hu, if_pos hp]
  refine ⟨heq, ?_, ?_⟩
  · rw [heq, topRated_filterMap g hwf]
    exact List.length_take_le _ _
  · rw [heq, topRated_filterMap g hwf]
    exact (List.sorted_insertionSort _ _).sublist (List.take_sublist _ _)

theorem contentBased_fallback_witness :
    getContentBasedRecommendations sampleGraph "u3" 10 =
      (getTopRatedMovies sampleGraph 10).filterMap (alookup sampleGraph.movies) :=
  (contentBased_fallback sampleGraph sampleGraph_wf "u3" sampleU3 (by decide) (by decide)
    (by decide) 10).1

lemma collabCandidate_not_rated {g : RecommendationGraph} {u : User} {m : String}
    (h : m ∈ collabCandidateIds g u) : userRated u m = false := by
  unfold collabCandidateIds at h
  have h2 := (List.mem_filter.mp h).2
  rw [Bool.and_eq_true] at h2
  simpa using h2.1

lemma mem_collab {g : RecommendationGraph} {uid : String} {u : User} {maxR : Nat}
    (hu : alookup g.users uid = some u) {mv : Movie}
    (h : mv ∈ getCollaborativeFilteringRecommendations g uid maxR) :
    ∃ m, alookup g.movies m = some mv ∧ m ∈ collabCandidateIds g u := by
  rw [getCollab_some hu] at h
  rcases List.mem_filterMap.mp h with ⟨q, hq, hlook⟩
  have hq1 := List.take_subset _ _ hq
  have hq2 := (List.mem_insertionSort _).mp hq1
  rcases List.mem_map.mp hq2 with ⟨m, hm, rfl⟩
  exact ⟨m, hlook, hm⟩

lemma collab_no_rated {g : RecommendationGraph} (hwf : WFGraph g) {uid : String}
    {u : User} {maxR : Nat} (hu : alookup g.users uid = some u) :
    ∀ mv ∈ getCollaborativeFilteringRecommendations g uid maxR,
      userRated u mv.id = false := by
  intro mv h
  rcases mem_collab hu h with ⟨m, hlook, hcand⟩
  rw [alookup_movie_id hwf hlook]
  exact collabCandidate_not_rated hcand

lemma collab_length {g : RecommendationGraph} {uid : String} {u : User} {maxR : Nat}
    (hu : alookup g.users uid = some u) :
    (getCollaborativeFilteringRecommendations g uid maxR).length ≤ maxR := by
  rw [getCollab_some hu]
  exact le_trans (List.length_filterMap_le _ _) (List.length_take_le _ _)

lemma mem_candPairs {g : RecommendationGraph} {u : User} {q : String × ℚ}
    (h : q ∈ (collabCandidateIds g u).map (fun m => (m, collabScore g u m))) :
    q.2 = collabScore g u q.1 := by
  rcases List.mem_map.mp h with ⟨m, _, rfl⟩
  rfl

lemma collab_pairwise {g : RecommendationGraph} (hwf : WFGraph g) {uid : String}
    {u : User} {maxR : Nat} (hu : alookup g.users uid = some u) :
    (getCollaborativeFilteringRecommendations g uid maxR).Pairwise
      (fun a b => collabScore g u b.id ≤ collabScore g u a.id) := by
  rw [getCollab_some hu, List.pairwise_filterMap]
  have hs := List.sorted_insertionSort
    (rank2 Prod.snd (fun q : String × ℚ => OrderDual.toDual q.1))
    ((collabCandidateIds g u).map (fun m => (m, collabScore g u m)))
  have ht := hs.sublist (List.take_sublist maxR _)
  refine List.Pairwise.imp_of_mem ?_ ht
  intro a b ha hb hab
  intro mv hmv mv' hmv'
  have hmv2 : alookup g.movies a.1 = some mv := hmv
  have hmv'2 : alookup g.movies b.1 = some mv' := hmv'
  have hamem := (List.mem_insertionSort _).mp (List.take_subset _ _ ha)
  have hbmem := (List.mem_insertionSort _).mp (List.take_subset _ _ hb)
  rw [alookup_movie_id hwf hmv2, alookup_movie_id hwf hmv'2, ← mem_candPairs hamem,
    ← mem_candPairs hbmem]
  exact rank2_le hab

lemma content_no_rated {g : RecommendationGraph} {uid : String} {u : User} {maxR : Nat}
    (hu : alookup g.users uid = some u) (hp : u.preferredGenres ≠ []) :
    ∀ mv ∈ getContentBasedRecommendations g uid maxR, userRated u mv.id = false := by
  intro mv h
  rw [getContentBased_some hu, if_neg hp] at h
  have h1 := (List.mem_insertionSort _).mp (List.take_subset _ _ h)
  have h2 := (List.mem_filter.mp h1).2
  rw [Bool.and_eq_true] at h2
  simpa using h2.2

lemma content_length {g : RecommendationGraph} {uid : String} {u : User} {maxR : Nat}
    (hu : alookup g.users uid = some u) :
    (getContentBasedRecommendations g uid maxR).length ≤ maxR := by
  rw [getContentBased_some hu]
  by_cases hp : u.preferredGenres = []
  · rw [if_pos hp]
    refine le_trans (List.length_filterMap_le _ _) ?_
    unfold getTopRatedMovies
    exact List.length_take_le _ _
  · rw [if_neg hp]
    exact List.length_take_le _ _

lemma content_pairwise {g : RecommendationGraph} (hwf : WFGraph g) {uid : String}
    {u : User} {maxR : Nat} (hu : alookup g.users uid = some u) :
    (getContentBasedRecommendations g uid maxR).Pairwise
      (fun a b : Movie => b.rating ≤ a.rating) := by
  rw [getContentBased_some hu]
  by_cases hp : u.preferredGenres = []
  · rw [if_pos hp, topRated_filterMap g hwf]
    exact ((List.sorted_insertionSort _ _).sublist (List.take_sublist _ _)).imp
      (fun hab => rank2_le hab)
  · rw [if_neg hp]
    exact ((List.sorted_insertionSort _ _).sublist (List.take_sublist _ _)).imp
      (fun hab => rank2_le hab)

lemma mem_hybrid {g : RecommendationGraph} {cw cbw : ℚ} {uid : String} {u : User}
    {maxR : Nat} (hu : alookup g.users uid = some u) {mv : Movie}
    (h : mv ∈ getHybridRecommendations g cw cbw uid maxR) :
    mv ∈ getCollaborativeFilteringRecommendations g uid maxR ∨
    mv ∈ getContentBasedRecommendations g uid maxR := by
  rw [getHybrid_some hu] at h
  have h1 := (List.mem_insertionSort _).mp (List.take_subset _ _ h)
  exact List.mem_append.mp (List.mem_dedup.mp h1)

lemma hybrid_length {g : RecommendationGraph} {cw cbw : ℚ} {uid : String} {u : User}
    {maxR : Nat} (hu : alookup g.users uid = some u) :
    (getHybridRecommendations g cw cbw uid maxR).length ≤ maxR := by
  rw [getHybrid_some hu]
  exact List.length_take_le _ _

lemma hybrid_pairwise {g : RecommendationGraph} {cw cbw : ℚ} {uid : String} {u : User}
    {maxR : Nat} (hu : alookup g.users uid = some u) :
    (getHybridRecommendations g cw cbw uid maxR).Pairwise
      (fun a b => hybridScore g u cw cbw b ≤ hybridScore g u cw cbw a) := by
  rw [getHybrid_some hu]
  exact ((List.sorted_insertionSort _ _).sublist (List.take_sublist _ _)).imp
    (fun hab => rank2_le hab)

/-- C3 (amended): for every well-formed graph, registered user and bound, the
collaborative list never contains a movie the user has rated, and the
content-based and hybrid lists never do so provided the user's preferredGenres
list is non-empty (with empty preferences the content fallback delegates to
the global top-rated list, which may include rated movies — see the
counterexample); all three lists have length at most `maxResults` and are
ordered by non-increasing computed score (aggregate similarity score,
reference rating, and blended score respectively). -/
theorem recommendation_lists_props (g : RecommendationGraph) (hwf : WFGraph g)
    (uid : String) (u : User) (hu : alookup g.users uid = some u)
    (maxResults : Nat) (cw cbw : ℚ) :
    ((getCollaborativeFilteringRecommendations g uid maxResults).length ≤ maxResults ∧
     (∀ mv ∈ getCollaborativeFilteringRecommendations g uid maxResults,
        userRated u mv.id = false) ∧
     (getCollaborativeFilteringRecommendations g uid maxResults).Pairwise
       (fun a b => collabScore g u b.id ≤ collabScore g u a.id)) ∧
    ((getContentBasedRecommendations g uid maxResults).length ≤ maxResults ∧
     (u.preferredGenres ≠ [] →
       ∀ mv ∈ getContentBasedRecommendations g uid maxResults,
         userRated u mv.id = false) ∧
     (getContentBasedRecommendations g uid maxResults).Pairwise
       (fun a b : Movie => b.rating ≤ a.rating)) ∧
    ((getHybridRecommendations g cw cbw uid maxResults).length ≤ maxResults ∧
     (u.preferredGenres ≠ [] →
       ∀ mv ∈ getHybridRecommendations g cw cbw uid maxResults,
         userRated u mv.id = false) ∧
     (getHybridRecommendations g cw cbw uid maxResults).Pairwise
       (fun a b => hybridScore g u cw cbw b ≤ hybridScore g u cw cbw a)) := by
  refine ⟨⟨collab_length hu, collab_no_rated hwf hu, collab_pairwise hwf hu⟩,
    ⟨content_length hu, fun hp => content_no_rated hu hp, content_pairwise hwf hu⟩,
    ⟨hybrid_length hu, ?_, hybrid_pairwise hu⟩⟩
  intro hp mv hmv
  rcases mem_hybrid hu hmv with h | h
  · exact collab_no_rated hwf hu mv h
  · exact content_no_rated hu hp mv h

theorem recommendation_lists_props_witness :
    (getCollaborativeFilteringRecommendations sampleGraph "u1" 10).length ≤ 10 :=
  (recommendation_lists_props sampleGraph sampleGraph_wf "u1" sampleU1 (by decide) 10
    1 0).1.1

/-- C3 counterexample: in the sample graph, user u3 has rated movie m1 and has
no preferred genres, yet the content-based recommendation list for u3 contains
m1 (through the top-rated fallback); so the claim that no recommendation list
ever contains a movie already rated by the querying user is false as stated. -/
theorem recommendation_lists_counterexample :
    alookup sampleGraph.users "u3" = some sampleU3 ∧
    userRated sampleU3 "m1" = true ∧
    sampleM1 ∈ getContentBasedRecommendations sampleGraph "u3" 10 ∧
    sampleM1.id = "m1" := by
  refine ⟨by decide, by decide, ?_, by decide⟩
  decide

end SpecModel
